import Mathlib

/-!
# Verification of the duckql selection-resolution engine

A shallow embedding of the core of the `duckql` GraphQL-without-a-schema
server: the literal/native value converter (`src/lib/values.ts`), the
selection tree builder (`src/lib/selection.ts`), the bounded parse cache
(`src/lib/parse-cache.ts`) and the request orchestrator (`src/index.ts`).

Modelling conventions:
* JavaScript numbers are modelled as rationals (`ℚ`); the finite IEEE
  doubles are a subset of the rationals, and `Number#toString` /
  `parseFloat` are exact mutual inverses on doubles, so a `FloatValueNode`
  carries the rational value of the double it prints.  `NaN` and the
  infinities are outside the model.
* `parseInt` applied to the decimal digit string of an integer returns the
  nearest double; this rounding is `roundToDouble` below.  Integers beyond
  the largest finite double (where JS would produce `Infinity`) are
  returned unchanged; no claim reaches that range.
* JavaScript `bigint` is modelled as `ℤ`, `Symbol` by its optional
  description string.
* JS objects keyed by GraphQL names (which never look like array indices)
  preserve insertion order; they are modelled as association lists with
  JS assignment semantics (`jsObjSet`).
* Exceptions become `Except GQLError`; the distinct `GraphQLQueryError`
  messages thrown by the source are modelled as distinct constructors.
-/

/-- Error kinds thrown by the engine; each constructor corresponds to one
`throw` site / message family in the source. -/
inductive GQLError where
  /-- `Could not resolve: $name` (values.ts, `Kind.VARIABLE` case). -/
  | unresolvedVariable (name : String)
  /-- `Cannot coerce undescribed Symbol to GraphQL` (values.ts). -/
  | unconvertibleValue
  /-- `Fragments are currently unsupported` (selection.ts). -/
  | unsupportedFragment
  /-- `Could not parse query` (index.ts) / the external parser failed. -/
  | parseError (msg : String)
  /-- `Could not find definition to run` (index.ts). -/
  | operationNotFound (name : String)
  /-- `Query is too long, cowardly refusing to parse` (index.ts). -/
  | queryTooLarge
deriving DecidableEq, Repr

/-- The GraphQL literal value grammar (the `ValueNode` union of the external
`graphql` package, which both converters in `values.ts` pattern-match on).
`intV` carries the integer denoted by the node's digit string, `floatV` the
rational value of the double denoted by the node's string. -/
inductive ValueNode where
  | nullV
  | varV (name : String)
  | objV (fields : List (String × ValueNode))
  | listV (values : List ValueNode)
  | enumV (value : String)
  | intV (value : Int)
  | floatV (value : ℚ)
  | strV (value : String)
  | boolV (value : Bool)
deriving Repr

/-- Native JS runtime values, the `GraphQLType` union of `src/types.ts`:
`boolean | bigint | number | string | Symbol | GraphQLType[] |
GraphQLVariables | null`.  A `Symbol`'s payload is its optional
description; an object is its ordered entry list. -/
inductive GraphQLType where
  | nullT
  | boolT (b : Bool)
  | numT (q : ℚ)
  | bigintT (n : Int)
  | strT (s : String)
  | symT (description : Option String)
  | listT (values : List GraphQLType)
  | objT (fields : List (String × GraphQLType))
deriving Repr

/-- Variable bindings (`GraphQLVariables` in the source): a JS object
mapping names to native values; absence models JS `undefined`. -/
abbrev GraphQLVariables := List (String × GraphQLType)

/-- JS assignment `o[k] = v` on a plain object: updates the value in place
when the key exists (keeping its position) and appends otherwise. -/
def jsObjSet {α : Type} (l : List (String × α)) (k : String) (v : α) :
    List (String × α) :=
  if l.any (fun p => p.1 = k) then
    l.map (fun p => if p.1 = k then (k, v) else p)
  else
    l ++ [(k, v)]

/-- JS `Math.trunc` / the integer part of ToNumber, truncation toward zero. -/
def jsTrunc (q : ℚ) : Int := q.num.tdiv (q.den : Int)

/-- JS ToInt32 (the coercion performed by `~~value`): truncate toward zero,
then wrap into the signed 32-bit range. -/
def toInt32 (q : ℚ) : Int := (jsTrunc q + 2 ^ 31).emod (2 ^ 32) - 2 ^ 31

/-- Smallest `e` (searched up to the given fuel) with `n / 2 ^ e < 2 ^ 53`:
the scaling exponent used when rounding the integer `n` to a double. -/
def findExp (n : Nat) : Nat → Nat → Option Nat
  | 0, _ => none
  | fuel + 1, e => if n < 2 ^ 53 * 2 ^ e then some e else findExp n fuel (e + 1)

/-- Round a natural number to the nearest IEEE double (53-bit mantissa,
ties to even), as `parseInt` does on a long digit string.  Beyond the
largest finite double, where JS overflows to `Infinity`, the number is
returned unchanged; that range is outside this model. -/
def roundToDoubleNat (n : Nat) : Nat :=
  if n < 2 ^ 53 then n
  else
    match findExp n 1100 1 with
    | none => n
    | some e =>
      let q := n / 2 ^ e
      let r := n % 2 ^ e
      let h := 2 ^ (e - 1)
      let q' := if h < r ∨ (r = h ∧ q % 2 = 1) then q + 1 else q
      q' * 2 ^ e

/-- `parseInt` applied to the exact decimal string of the integer `i`:
the nearest double (rounding is symmetric about zero). -/
def roundToDouble (i : Int) : Int := i.sign * (roundToDoubleNat i.natAbs : Int)

/-- An integer that a double represents exactly (so `parseInt` of its digit
string returns it unchanged): within the finite-double range and a fixed
point of the rounding. -/
def DoubleExact (i : Int) : Prop :=
  i.natAbs ≤ (2 ^ 53 - 1) * 2 ^ 971 ∧ roundToDouble i = i

instance (i : Int) : Decidable (DoubleExact i) := by
  unfold DoubleExact; infer_instance

mutual

/-- `convertVarToNode` (values.ts lines 53–127): converts a native JS value
of supported type to a GraphQL AST `ValueNode`.  The `numT` case performs
the source's `~~value !== value` integrality-and-int32 test; `Int` and
`Float` nodes carry the numeric value of the `value.toString()` the source
stores. -/
def convertVarToNode : GraphQLType → Except GQLError ValueNode
  | .nullT => .ok .nullV
  | .listT vs => do
    let ns ← convertVarToNodeList vs
    pure (.listV ns)
  | .symT d =>
    -- `if (!value.description) throw ...`: both a missing description and
    -- the empty string are falsy.
    match d with
    | none => .error .unconvertibleValue
    | some s => if s = "" then .error .unconvertibleValue else .ok (.enumV s)
  | .objT fields => do
    let ns ← convertVarToNodeObj fields
    pure (.objV ns)
  | .boolT b => .ok (.boolV b)
  | .numT q =>
    -- `if (~~value !== value) return FLOAT` else fall through to INT.
    if (toInt32 q : ℚ) = q then .ok (.intV (jsTrunc q)) else .ok (.floatV q)
  | .bigintT n => .ok (.intV n)
  | .strT s => .ok (.strV s)

/-- Elementwise `convertVarToNode` over a JS array (`value.map(...)`). -/
def convertVarToNodeList : List GraphQLType → Except GQLError (List ValueNode)
  | [] => .ok []
  | v :: rest => do
    let n ← convertVarToNode v
    let ns ← convertVarToNodeList rest
    pure (n :: ns)

/-- Entrywise `convertVarToNode` over `Object.entries(value)`. -/
def convertVarToNodeObj :
    List (String × GraphQLType) → Except GQLError (List (String × ValueNode))
  | [] => .ok []
  | (k, v) :: rest => do
    let n ← convertVarToNode v
    let ns ← convertVarToNodeObj rest
    pure ((k, n) :: ns)

end

mutual

/-- `convertNodeToVar` (values.ts lines 11–48): converts a GraphQL AST
`ValueNode` to a native JS value, resolving `VARIABLE` nodes against the
bindings (an absent binding — JS `undefined` — is the failure condition)
and re-checking each resolved value with `convertVarToNode`. -/
def convertNodeToVar (arg : ValueNode) (vars : GraphQLVariables) :
    Except GQLError GraphQLType :=
  match arg with
  | .nullV => .ok .nullT
  | .varV name =>
    match vars.lookup name with
    | none => .error (.unresolvedVariable name)
    | some out => do
      -- `convertVarToNode(out)` — check the binding is usable, discard.
      let _ ← convertVarToNode out
      pure out
  | .objV fields => do
    let es ← convertNodeToVarObj fields vars
    pure (.objT es)
  | .listV values => do
    let vs ← convertNodeToVarList values vars
    pure (.listT vs)
  | .enumV v => .ok (.symT (some v))
  | .intV n => .ok (.numT ((roundToDouble n : ℤ) : ℚ))
  | .floatV q => .ok (.numT q)
  | .strV s => .ok (.strT s)
  | .boolV b => .ok (.boolT b)

/-- Elementwise `convertNodeToVar` over a `LIST` node's values. -/
def convertNodeToVarList (args : List ValueNode) (vars : GraphQLVariables) :
    Except GQLError (List GraphQLType) :=
  match args with
  | [] => .ok []
  | a :: rest => do
    let v ← convertNodeToVar a vars
    let vs ← convertNodeToVarList rest vars
    pure (v :: vs)

/-- Entrywise `convertNodeToVar` over an `OBJECT` node's fields; the
source's `Object.fromEntries` keeps field order for GraphQL names. -/
def convertNodeToVarObj (fields : List (String × ValueNode))
    (vars : GraphQLVariables) :
    Except GQLError (List (String × GraphQLType)) :=
  match fields with
  | [] => .ok []
  | (k, a) :: rest => do
    let v ← convertNodeToVar a vars
    let vs ← convertNodeToVarObj rest vars
    pure ((k, v) :: vs)

end

/-- The rational 123.45 (`Rat.div` is not kernel-reducible, so concrete
non-integral rationals are built by their normal form). -/
def q123_45 : ℚ := ⟨2469, 20, by decide, by decide⟩

example : convertVarToNode (.numT 123) = .ok (.intV 123) := by rfl
example : convertVarToNode (.numT q123_45) = .ok (.floatV q123_45) := by rfl
example : convertNodeToVar (.intV 123456) [] = .ok (.numT 123456) := by rfl

/-! ## Selection syntax and the selection tree builder (`src/lib/selection.ts`) -/

/-- The GraphQL selection AST (the external `graphql` package's
`SelectionNode` union): a field — with optional alias, arguments,
directives (each directive has a name and arguments) and an optional
sub-selection-set — or one of the two fragment forms.  The builder
rejects fragments and never inspects directives. -/
inductive Sel where
  | field (al : Option String) (name : String)
      (arguments : List (String × ValueNode))
      (directives : List (String × List (String × ValueNode)))
      (selectionSet : Option (List Sel))
  | fragmentSpread (name : String)
  | inlineFragment
deriving Repr

/-- The field name of a selection (the source's `sel.name.value`). -/
def Sel.name : Sel → String
  | .field _ nm _ _ _ => nm
  | .fragmentSpread nm => nm
  | .inlineFragment => ""

/-- The selection set of a field, if any. -/
def Sel.selectionSet : Sel → Option (List Sel)
  | .field _ _ _ _ s => s
  | _ => none

/-- The arguments of a field. -/
def Sel.arguments : Sel → List (String × ValueNode)
  | .field _ _ args _ _ => args
  | _ => []

/-- Replace a field's arguments (the in-place `arg.value = node` writes). -/
def Sel.withArguments : Sel → List (String × ValueNode) → Sel
  | .field al nm _ dirs sub, args => .field al nm args dirs sub
  | s, _ => s

/-- duckql's `SelectionNode` (`src/types.ts`): resolved argument map,
optional child `SelectionSet` (an insertion-ordered map from field name to
node) and the backing syntax node. -/
inductive SNode where
  | mk (args : Option (List (String × GraphQLType)))
      (sub : Option (List (String × SNode))) (node : Sel)
deriving Repr

/-- duckql's `SelectionSet`: insertion-ordered map from field name to
`SNode`, modelled as an association list with JS object semantics. -/
abbrev SelSet := List (String × SNode)

/-- Resolved argument map of an `SNode`. -/
def SNode.args : SNode → Option (List (String × GraphQLType))
  | .mk a _ _ => a

/-- Child selection set of an `SNode`. -/
def SNode.sub : SNode → Option SelSet
  | .mk _ s _ => s

/-- Backing syntax node of an `SNode`. -/
def SNode.node : SNode → Sel
  | .mk _ _ n => n

mutual

/-- The argument loop of `SelectionContext.#internalBuild` (selection.ts
lines 62–77): for each argument, resolve its value to a native value with
`convertNodeToVar`, record it in the `args` object, and overwrite the
argument's literal with `convertVarToNode` of the resolved value.  Returns
the rewritten argument list and the accumulated `args` object. -/
def buildArgs (vars : GraphQLVariables) (args : List (String × ValueNode))
    (acc : List (String × GraphQLType)) :
    Except GQLError (List (String × ValueNode) × List (String × GraphQLType)) :=
  match args with
  | [] => .ok ([], acc)
  | (aname, avalue) :: rest => do
    let jsArg ← convertNodeToVar avalue vars
    let acc' := jsObjSet acc aname jsArg
    let node ← convertVarToNode jsArg
    let (rest', accF) ← buildArgs vars rest acc'
    pure ((aname, node) :: rest', accF)

/-- `SelectionContext.#internalBuild` (selection.ts lines 42–86).  The
instance state `this.maxDepth` is threaded as the `maxDepth` accumulator;
the in-place mutation of the cloned node is modelled by returning the
rewritten node.  Returns `(rewritten node, built set if any, maxDepth)`.
The fragment cases are unreachable: the builder is only invoked on field
nodes. -/
def internalBuild (vars : GraphQLVariables) (node : Sel) (depth : Nat)
    (maxDepth : Nat) : Except GQLError (Sel × Option SelSet × Nat) :=
  match node with
  | .field al nm args dirs none => .ok (.field al nm args dirs none, none, maxDepth)
  | .field al nm args dirs (some selections) => do
    let depth' := depth + 1
    let maxDepth' := Nat.max depth' maxDepth
    let (sels', set, m) ← buildSelections vars selections depth' [] maxDepth'
    pure (.field al nm args dirs (some sels'), some set, m)
  | .fragmentSpread nm => .ok (.fragmentSpread nm, none, maxDepth)
  | .inlineFragment => .ok (.inlineFragment, none, maxDepth)

/-- The `for (const sel of selections)` loop of `#internalBuild`: rejects
fragments, builds each field's `SNode` (arguments first, then the
recursive descent at the incremented depth) and inserts it into the set
keyed by `sel.name.value`.  The argument rewrite happens before the
descent in the source; since the descent never reads arguments, the
rewritten arguments are merged into the returned node afterwards. -/
def buildSelections (vars : GraphQLVariables) (sels : List Sel)
    (depth : Nat) (set : SelSet) (maxDepth : Nat) :
    Except GQLError (List Sel × SelSet × Nat) :=
  match sels with
  | [] => .ok ([], set, maxDepth)
  | sel :: rest =>
    match sel with
    | .fragmentSpread _ => .error .unsupportedFragment
    | .inlineFragment => .error .unsupportedFragment
    | .field al nm args dirs sub => do
      -- `if (sel.arguments?.length)` — only a field with arguments gets
      -- an `args` map.
      let (args', oargs) ←
        if args.isEmpty then pure (args, (none : Option (List (String × GraphQLType))))
        else do
          let (rewritten, conv) ← buildArgs vars args []
          pure (rewritten, some conv)
      let (sel2, sub2, m1) ←
        internalBuild vars (.field al nm args dirs sub) depth maxDepth
      let selFinal := sel2.withArguments args'
      let o : SNode := .mk oargs sub2 selFinal
      let set' := jsObjSet set nm o
      let (rest', setF, m2) ← buildSelections vars rest depth set' m1
      pure (selFinal :: rest', setF, m2)

end

/-- `SelectionContext.build` (selection.ts lines 27–40): wrap the cloned
selection set in a synthetic blank field and descend.  `structuredClone`
produces an equal private copy, so in this pure embedding the clone is the
value itself and mutation is modelled by the returned rewritten tree.
Returns the root `SNode` together with the final `this.maxDepth`. -/
def SelectionContext.build (vars : GraphQLVariables)
    (selectionSet : List Sel) : Except GQLError (SNode × Nat) := do
  let virtualFieldNode : Sel := .field none "" [] [] (some selectionSet)
  let (node', sub, maxDepth) ← internalBuild vars virtualFieldNode 0 0
  pure (.mk none sub node', maxDepth)

example :
    SelectionContext.build [] [.field none "_" [] [] none] =
      .ok (.mk none (some [("_", .mk none none (.field none "_" [] [] none))])
        (.field none "" [] [] (some [.field none "_" [] [] none])), 1) := by
  rfl

/-! ## Document syntax and the orchestrator (`src/index.ts`) -/

/-- The three GraphQL operation kinds (`OperationTypeNode`). -/
inductive OperationType where
  | query
  | mutation
  | subscription
deriving DecidableEq, Repr

/-- A declared operation variable (`VariableDefinitionNode`): its name and
optional default literal. -/
structure VariableDefinition where
  name : String
  defaultValue : Option ValueNode
deriving Repr

/-- `OperationDefinitionNode`: operation kind, optional name, ordered
variable declarations and the selection set. -/
structure OperationDefinitionNode where
  operation : OperationType
  name : Option String
  variableDefinitions : List VariableDefinition
  selectionSet : List Sel
deriving Repr

/-- A top-level definition of a parsed document; `buildContext` only runs
operation definitions and skips everything else when searching. -/
inductive Definition where
  | operationDefinition (od : OperationDefinitionNode)
  | fragmentDefinition (name : String)
deriving Repr

/-- A parsed document (`DocumentNode`): its ordered definitions. -/
abbrev Document := List Definition

/-! ## The parse cache (`src/lib/parse-cache.ts`) -/

/-- The characters collapsed by the normalization regex `/[\s,]+/g`:
JS `\s` (ECMA-262 WhiteSpace and LineTerminator code points) plus the
comma. -/
def isWsComma (c : Char) : Bool :=
  c = ',' || c = ' ' || c = '\t' || c = '\n' || c = '\r' ||
  c.val = 11 || c.val = 12 || c.val = 0xa0 || c.val = 0x1680 ||
  (0x2000 ≤ c.val && c.val ≤ 0x200a) || c.val = 0x2028 || c.val = 0x2029 ||
  c.val = 0x202f || c.val = 0x205f || c.val = 0x3000 || c.val = 0xfeff

/-- The characters removed by JS `String#trim` (whitespace but not the
comma). -/
def isJsWs (c : Char) : Bool := isWsComma c && !(c = ',')

/-- `replace(/[\s,]+/g, ' ')`: every maximal run of whitespace/comma
characters becomes a single space.  The flag records whether the previous
character belonged to a run. -/
def collapseAux : Bool → List Char → List Char
  | _, [] => []
  | inRun, c :: rest =>
    if isWsComma c then
      (if inRun then [] else [' ']) ++ collapseAux true rest
    else
      c :: collapseAux false rest

/-- Erase the text of each whitespace/comma run, keeping a single marker:
two texts "differ only in runs of whitespace/comma characters" exactly
when their erasures agree. -/
def runEraseAux : Bool → List Char → List (Option Char)
  | _, [] => []
  | inRun, c :: rest =>
    if isWsComma c then
      (if inRun then [] else [none]) ++ runEraseAux true rest
    else
      some c :: runEraseAux false rest

/-- Run erasure of a query text, starting outside any run. -/
def runErase (s : String) : List (Option Char) := runEraseAux false s.toList

/-- JS `String#trim`: drop whitespace from both ends. -/
def jsTrim (cs : List Char) : List Char :=
  ((cs.dropWhile isJsWs).reverse.dropWhile isJsWs).reverse

/-- The cache key: `query.replace(/[\s,]+/g, ' ').trim()`. -/
def normalizeQuery (s : String) : String :=
  String.mk (jsTrim (collapseAux false s.toList))

/-- `ParseCache` instance state: the `Map` (insertion-ordered entry list),
the running total `#usedQueryLength` and the configured byte budget
`#queryLength` (constructor default 100000). -/
structure ParseCache where
  cache : List (String × Document)
  usedQueryLength : Nat
  queryLength : Nat
deriving Repr

/-- A fresh `new ParseCache(queryLength)`. -/
def ParseCache.empty (queryLength : Nat) : ParseCache :=
  ⟨[], 0, queryLength⟩

/-- The eviction `while` loop: while the total exceeds the budget, delete
the first (oldest-inserted) entry and subtract its key length.  On an
empty map with the total still over budget the source would fault reading
`key.value.length`; that state is unreachable when the total equals the
sum of entry lengths. -/
def evictLoop (budget : Nat) : List (String × Document) → Nat →
    List (String × Document) × Nat
  | [], used => ([], used)
  | (k, d) :: rest, used =>
    if used ≤ budget then ((k, d) :: rest, used)
    else evictLoop budget rest (used - k.length)

/-- `ParseCache.parse` (parse-cache.ts lines 15–34): normalize, hit the
map, otherwise invoke the external parser `p`, insert keyed by the
normalized text, grow the total, and evict oldest-first while over
budget.  Returns the result together with the updated cache state (a
parser error leaves the state untouched — errors are not cached). -/
def ParseCache.parse (p : String → Except GQLError Document)
    (st : ParseCache) (query : String) :
    Except GQLError Document × ParseCache :=
  let normalizedQuery := normalizeQuery query
  match st.cache.lookup normalizedQuery with
  | some cachedNode => (.ok cachedNode, st)
  | none =>
    match p normalizedQuery with
    | .error e => (.error e, st)
    | .ok node =>
      let cache1 := st.cache ++ [(normalizedQuery, node)]
      let used1 := st.usedQueryLength + normalizedQuery.length
      let (cache2, used2) := evictLoop st.queryLength cache1 used1
      (.ok node, { st with cache := cache2, usedQueryLength := used2 })

/-! ## The orchestrator (`buildContext`, `src/index.ts` lines 141–199) -/

/-- An incoming request: optional operation name, query text, optional
variable bindings (`GraphQLRequest` in `src/types.ts`). -/
structure GraphQLRequest where
  operationName : Option String
  query : String
  /-- The caller-supplied variable bindings (`variables` in the source). -/
  vars : Option GraphQLVariables
deriving Repr

/-- The context handed to the resolver (`ResolverContext` in
`src/types.ts`). -/
structure ResolverContext where
  operation : OperationType
  operationName : String
  maxDepth : Nat
  node : OperationDefinitionNode
  selection : SNode
deriving Repr

/-- The variable-construction loop of `buildContext` (index.ts lines
177–186): for each declared variable in order, take the caller-supplied
binding when present (JS `!== undefined`), else evaluate the declared
default with empty bindings, else leave the variable unbound. -/
def buildVariables (reqVars : GraphQLVariables) :
    List VariableDefinition → GraphQLVariables →
    Except GQLError GraphQLVariables
  | [], acc => .ok acc
  | vd :: rest, acc =>
    match reqVars.lookup vd.name with
    | some v => buildVariables reqVars rest (jsObjSet acc vd.name v)
    | none =>
      match vd.defaultValue with
      | some dv => do
        let v ← convertNodeToVar dv []
        buildVariables reqVars rest (jsObjSet acc vd.name v)
      | none => buildVariables reqVars rest acc

/-- `buildContext` (index.ts): parse (via the supplied parse capability),
select the operation definition — the named one, or the first when no
name (or the empty name) was requested —, build the effective variable
bindings, build the selection tree, and assemble the context. -/
def buildContext (request : GraphQLRequest)
    (graphqlParse : String → Except GQLError Document) :
    Except GQLError ResolverContext := do
  let parsed ← graphqlParse request.query
  let operationName := request.operationName.getD ""
  let defToRun? := parsed.find? (fun d =>
    match d with
    | .operationDefinition od =>
      if operationName = "" then true else od.name = some operationName
    | _ => false)
  match defToRun? with
  | none => .error (.operationNotFound operationName)
  | some (.fragmentDefinition _) => .error (.operationNotFound operationName)
  | some (.operationDefinition defToRun) => do
    -- `operationName = defToRun.name?.value || operationName`
    let operationName1 :=
      match defToRun.name with
      | some s => if s = "" then operationName else s
      | none => operationName
    let vars ← buildVariables (request.vars.getD [])
      defToRun.variableDefinitions []
    let (selection, maxDepth) ← SelectionContext.build vars defToRun.selectionSet
    pure { operation := defToRun.operation, operationName := operationName1,
           maxDepth := maxDepth, node := defToRun, selection := selection }

example :
    (buildContext ⟨none, "{_}", none⟩ (fun _ =>
      .ok [.operationDefinition ⟨.query, none, [], [.field none "_" [] [] none]⟩])).map
      (fun c => (c.operationName, c.maxDepth)) = .ok ("", 1) := by rfl

example : normalizeQuery "  query ,,  Foo { a }  " = "query Foo { a }" := by rfl

/-! ## Shared lemmas -/

/-- `convertVarToNode` either succeeds or fails with `unconvertibleValue`;
in particular it never fails with `unresolvedVariable`. -/
theorem convertVarToNode_ok_or_unconvertible :
    (∀ v : GraphQLType,
        (∃ l, convertVarToNode v = .ok l) ∨
          convertVarToNode v = .error .unconvertibleValue) ∧
    (∀ o : List (String × GraphQLType),
        (∃ l, convertVarToNodeObj o = .ok l) ∨
          convertVarToNodeObj o = .error .unconvertibleValue) ∧
    (∀ l : List GraphQLType,
        (∃ n, convertVarToNodeList l = .ok n) ∨
          convertVarToNodeList l = .error .unconvertibleValue) := by
  refine convertVarToNode.mutual_induct
    (fun v => (∃ l, convertVarToNode v = .ok l) ∨
      convertVarToNode v = .error .unconvertibleValue)
    (fun o => (∃ l, convertVarToNodeObj o = .ok l) ∨
      convertVarToNodeObj o = .error .unconvertibleValue)
    (fun l => (∃ n, convertVarToNodeList l = .ok n) ∨
      convertVarToNodeList l = .error .unconvertibleValue)
    ?_ ?_ ?_ ?_ ?_ ?_ ?_ ?_ ?_ ?_ ?_ ?_ ?_ ?_ ?_
  · simp [convertVarToNode]
  · intro vs ih
    rcases ih with ⟨n, hn⟩ | hn <;> simp [convertVarToNode, hn]
  · simp [convertVarToNode]
  · simp [convertVarToNode]
  · intro s hs
    simp [convertVarToNode, hs]
  · intro fields ih
    rcases ih with ⟨l, hl⟩ | hl <;> simp [convertVarToNode, hl]
  · intro b
    simp [convertVarToNode]
  · intro q hq
    simp [convertVarToNode, hq]
  · intro q hq
    simp [convertVarToNode, hq]
  · intro n
    simp [convertVarToNode]
  · intro s
    simp [convertVarToNode]
  · simp [convertVarToNodeList]
  · intro v rest ihv ihrest
    rcases ihv with ⟨l, hl⟩ | hl
    · rcases ihrest with ⟨n, hn⟩ | hn <;>
        simp [convertVarToNodeList, hl, hn, Bind.bind, Except.bind,
          Functor.map, Except.map, Pure.pure, Except.pure]
    · simp [convertVarToNodeList, hl, Bind.bind, Except.bind,
        Functor.map, Except.map]
  · simp [convertVarToNodeObj]
  · intro k v rest ihv ihrest
    rcases ihv with ⟨l, hl⟩ | hl
    · rcases ihrest with ⟨n, hn⟩ | hn <;>
        simp [convertVarToNodeObj, hl, hn, Bind.bind, Except.bind,
          Functor.map, Except.map, Pure.pure, Except.pure]
    · simp [convertVarToNodeObj, hl, Bind.bind, Except.bind,
        Functor.map, Except.map]

/-- Truncation of a rational with denominator one is its numerator. -/
theorem jsTrunc_den_one {q : ℚ} (h : q.den = 1) : jsTrunc q = q.num := by
  unfold jsTrunc
  rw [h]
  simp

/-- The `~~value === value` test holds exactly for integral rationals in
the signed 32-bit range. -/
theorem toInt32_cast_eq_iff (q : ℚ) :
    (toInt32 q : ℚ) = q ↔ q.den = 1 ∧ -(2 ^ 31) ≤ q.num ∧ q.num < 2 ^ 31 := by
  constructor
  · intro h
    have hden : q.den = 1 := by rw [← h]; exact Rat.den_intCast _
    have hnum : q.num = toInt32 q := by
      conv_lhs => rw [← h]
      exact Rat.num_intCast _
    have h1 : (0 : ℤ) ≤ (jsTrunc q + 2 ^ 31) % 2 ^ 32 :=
      Int.emod_nonneg _ (by norm_num)
    have h2 : (jsTrunc q + 2 ^ 31) % 2 ^ 32 < 2 ^ 32 :=
      Int.emod_lt_of_pos _ (by norm_num)
    have he : toInt32 q = (jsTrunc q + 2 ^ 31) % 2 ^ 32 - 2 ^ 31 := rfl
    refine ⟨hden, ?_, ?_⟩ <;> rw [hnum, he] <;> omega
  · rintro ⟨hden, h1, h2⟩
    have hq : ((q.num : ℤ) : ℚ) = q := (Rat.den_eq_one_iff q).mp hden
    have ht : jsTrunc q = q.num := jsTrunc_den_one hden
    have he : toInt32 q = (q.num + 2 ^ 31) % 2 ^ 32 - 2 ^ 31 := by
      unfold toInt32
      rw [ht]
      rfl
    have hmod : (q.num + 2 ^ 31) % 2 ^ 32 = q.num + 2 ^ 31 :=
      Int.emod_eq_of_lt (by omega) (by omega)
    rw [he, hmod]
    rw [show q.num + 2 ^ 31 - 2 ^ 31 = q.num by omega]
    exact hq

/-- C6 (amended): `nativeToLiteral` maps every big integer to an `Int`
literal; an integral number to an `Int` literal exactly when it lies in
the signed 32-bit range and to a `Float` literal otherwise; and every
non-integral number to a `Float` literal. -/
theorem convertVarToNode_number_classification :
    (∀ n : ℤ, convertVarToNode (.bigintT n) = .ok (.intV n)) ∧
    (∀ q : ℚ, q.den = 1 → -(2 ^ 31) ≤ q.num → q.num < 2 ^ 31 →
      convertVarToNode (.numT q) = .ok (.intV q.num)) ∧
    (∀ q : ℚ, q.den = 1 → (q.num < -(2 ^ 31) ∨ 2 ^ 31 ≤ q.num) →
      convertVarToNode (.numT q) = .ok (.floatV q)) ∧
    (∀ q : ℚ, q.den ≠ 1 → convertVarToNode (.numT q) = .ok (.floatV q)) := by
  refine ⟨fun n => rfl, ?_, ?_, ?_⟩
  · intro q h1 h2 h3
    have hiff := (toInt32_cast_eq_iff q).mpr ⟨h1, h2, h3⟩
    have ht := jsTrunc_den_one h1
    simp [convertVarToNode, hiff, ht]
  · intro q h1 h2
    have hne : ¬((toInt32 q : ℚ) = q) := by
      rw [toInt32_cast_eq_iff]
      rintro ⟨_, ha, hb⟩
      omega
    simp [convertVarToNode, hne]
  · intro q h1
    have hne : ¬((toInt32 q : ℚ) = q) := by
      rw [toInt32_cast_eq_iff]
      rintro ⟨ha, _, _⟩
      exact h1 ha
    simp [convertVarToNode, hne]

/-- Witness for the C6 theorem at concrete inputs: `5` (int32-exact),
`123.45` (non-integral) and the bigint `7`. -/
theorem convertVarToNode_number_classification_witness :
    convertVarToNode (.numT 5) = .ok (.intV (5 : ℚ).num) ∧
    convertVarToNode (.numT q123_45) = .ok (.floatV q123_45) ∧
    convertVarToNode (.bigintT 7) = .ok (.intV 7) :=
  ⟨convertVarToNode_number_classification.2.1 5 (by norm_num) (by norm_num)
      (by norm_num),
    convertVarToNode_number_classification.2.2.2 q123_45 (by decide),
    convertVarToNode_number_classification.1 7⟩

/-- C6 counterexample: `2147483648` is an integral number but, failing the
32-bit `~~` test, it is mapped to a `Float` literal, not an `Int`
literal. -/
theorem convertVarToNode_integral_to_float :
    (2147483648 : ℚ).den = 1 ∧
    convertVarToNode (.numT 2147483648) = .ok (.floatV 2147483648) ∧
    convertVarToNode (.numT 2147483648) ≠ .ok (.intV 2147483648) := by
  refine ⟨by norm_num, by rfl, ?_⟩
  rw [show convertVarToNode (.numT 2147483648) = .ok (.floatV 2147483648)
    from rfl]
  simp

/-- C4: resolving a `VariableRef` fails with `UnresolvedVariable` exactly
when the bindings have no value for the name, and a binding that is
present with value `null` resolves to `null`, not an error. -/
theorem convertNodeToVar_unresolved_iff (name : String)
    (vars : GraphQLVariables) :
    ((∃ s, convertNodeToVar (.varV name) vars =
        .error (.unresolvedVariable s)) ↔ vars.lookup name = none) ∧
    (vars.lookup name = some .nullT →
      convertNodeToVar (.varV name) vars = .ok .nullT) := by
  constructor
  · constructor
    · rintro ⟨s, hs⟩
      cases h : vars.lookup name with
      | none => rfl
      | some out =>
        simp only [convertNodeToVar, h] at hs
        rcases convertVarToNode_ok_or_unconvertible.1 out with ⟨l, hl⟩ | hl <;>
          simp [hl, Bind.bind, Except.bind, Pure.pure, Except.pure] at hs
    · intro h
      exact ⟨name, by simp [convertNodeToVar, h]⟩
  · intro h
    simp [convertNodeToVar, h, convertVarToNode, Bind.bind, Except.bind,
      Pure.pure, Except.pure]

/-- Witness for C4: a binding present with value `null` resolves to
`null`. -/
theorem convertNodeToVar_unresolved_iff_witness :
    convertNodeToVar (.varV "x") [("x", .nullT)] = .ok .nullT :=
  (convertNodeToVar_unresolved_iff "x" [("x", .nullT)]).2 (by rfl)

/-! ## C3: the parse-cache byte budget and FIFO eviction -/

/-- Total normalized-text length of the cached entries (the quantity
`#usedQueryLength` is meant to track). -/
def cacheEntriesLength (entries : List (String × Document)) : Nat :=
  (entries.map (fun p => p.1.length)).sum

/-- Well-formedness of a cache state: the running counter equals the sum
of entry key lengths and is within the configured budget. -/
def CacheWF (st : ParseCache) : Prop :=
  st.usedQueryLength = cacheEntriesLength st.cache ∧
  st.usedQueryLength ≤ st.queryLength

/-- The eviction loop drops entries from the front (oldest-inserted first)
and stops as soon as the total is within budget: the result is the longest
suffix of the input whose total length is within budget, and the counter
tracks it exactly. -/
theorem evictLoop_spec (B : Nat) :
    ∀ (es : List (String × Document)) (used : Nat),
      used = cacheEntriesLength es →
      (evictLoop B es used).1 <:+ es ∧
      (evictLoop B es used).2 = cacheEntriesLength (evictLoop B es used).1 ∧
      (evictLoop B es used).2 ≤ B ∧
      ∀ s, s <:+ es → cacheEntriesLength s ≤ B →
        s <:+ (evictLoop B es used).1 := by
  intro es
  induction es with
  | nil =>
    intro used h
    simp [cacheEntriesLength] at h
    subst h
    refine ⟨List.suffix_rfl, by simp [evictLoop, cacheEntriesLength], by
      simp [evictLoop], ?_⟩
    intro s hs _
    simpa [evictLoop] using hs
  | cons e rest ih =>
    intro used h
    obtain ⟨k, d⟩ := e
    have hlen : cacheEntriesLength ((k, d) :: rest) =
        k.length + cacheEntriesLength rest := by
      simp [cacheEntriesLength]
    by_cases hb : used ≤ B
    · rw [show evictLoop B ((k, d) :: rest) used = ((k, d) :: rest, used) by
        simp [evictLoop, hb]]
      exact ⟨List.suffix_rfl, h, hb, fun s hs _ => hs⟩
    · rw [show evictLoop B ((k, d) :: rest) used =
          evictLoop B rest (used - k.length) by simp [evictLoop, hb]]
      have hrest : used - k.length = cacheEntriesLength rest := by
        rw [h, hlen]
        omega
      obtain ⟨ih1, ih2, ih3, ih4⟩ := ih (used - k.length) hrest
      refine ⟨ih1.trans (List.suffix_cons (k, d) rest), ih2, ih3, ?_⟩
      intro s hs hsb
      rcases List.suffix_cons_iff.mp hs with rfl | hs'
      · rw [← h] at hsb
        omega
      · exact ih4 s hs' hsb

/-- C3: after any `ParseCache.parse` call the counter invariant and the
byte budget hold; the budget is unchanged; a cache hit changes nothing at
all (so an entry's eviction position is untouched); and on a miss the
surviving entries form the longest within-budget suffix of the old
entries followed by the new one — i.e. eviction removes oldest-inserted
entries first, and only until the total is back within budget. -/
theorem parseCache_parse_invariant (p : String → Except GQLError Document)
    (st : ParseCache) (q : String) (hwf : CacheWF st) :
    CacheWF (ParseCache.parse p st q).2 ∧
    (ParseCache.parse p st q).2.queryLength = st.queryLength ∧
    (∀ d, st.cache.lookup (normalizeQuery q) = some d →
      ParseCache.parse p st q = (.ok d, st)) ∧
    (∀ d, st.cache.lookup (normalizeQuery q) = none →
      p (normalizeQuery q) = .ok d →
      (ParseCache.parse p st q).2.cache <:+
        st.cache ++ [(normalizeQuery q, d)] ∧
      (∀ s, s <:+ st.cache ++ [(normalizeQuery q, d)] →
        cacheEntriesLength s ≤ st.queryLength →
        s <:+ (ParseCache.parse p st q).2.cache)) := by
  obtain ⟨hwf1, hwf2⟩ := hwf
  cases hl : st.cache.lookup (normalizeQuery q) with
  | some cached =>
    have hres : ParseCache.parse p st q = (.ok cached, st) := by
      simp [ParseCache.parse, hl]
    rw [hres]
    refine ⟨⟨hwf1, hwf2⟩, rfl, ?_, ?_⟩
    · intro d hd
      cases hd
      rfl
    · intro d hd
      cases hd
  | none =>
    cases hp : p (normalizeQuery q) with
    | error e =>
      have hres : ParseCache.parse p st q = (.error e, st) := by
        simp [ParseCache.parse, hl, hp]
      rw [hres]
      refine ⟨⟨hwf1, hwf2⟩, rfl, ?_, ?_⟩
      · intro d hd
        cases hd
      · intro d _ hpd
        cases hpd
    | ok node =>
      have hnew : st.usedQueryLength + (normalizeQuery q).length =
          cacheEntriesLength (st.cache ++ [(normalizeQuery q, node)]) := by
        simp [cacheEntriesLength, hwf1]
      obtain ⟨e1, e2, e3, e4⟩ := evictLoop_spec st.queryLength
        (st.cache ++ [(normalizeQuery q, node)])
        (st.usedQueryLength + (normalizeQuery q).length) hnew
      have hres : ParseCache.parse p st q = (.ok node,
          { st with
            cache := (evictLoop st.queryLength
              (st.cache ++ [(normalizeQuery q, node)])
              (st.usedQueryLength + (normalizeQuery q).length)).1,
            usedQueryLength := (evictLoop st.queryLength
              (st.cache ++ [(normalizeQuery q, node)])
              (st.usedQueryLength + (normalizeQuery q).length)).2 }) := by
        simp [ParseCache.parse, hl, hp]
      rw [hres]
      refine ⟨⟨e2, e3⟩, rfl, ?_, ?_⟩
      · intro d hd
        cases hd
      · intro d _ hpd
        cases hpd
        exact ⟨e1, e4⟩

/-- Witness for C3: a parse on a fresh cache with budget 100. -/
theorem parseCache_parse_invariant_witness :
    CacheWF (ParseCache.parse (fun _ => .ok []) (ParseCache.empty 100)
      "{_}").2 :=
  (parseCache_parse_invariant (fun _ => .ok []) (ParseCache.empty 100) "{_}"
    ⟨rfl, by decide⟩).1

/-! ## C9, C10: cache-key normalization -/

/-- Collapsing runs only depends on the run-erasure: each marker renders
as one space. -/
theorem collapseAux_eq_map_runEraseAux (cs : List Char) :
    ∀ b, collapseAux b cs = (runEraseAux b cs).map (fun o => o.getD ' ') := by
  induction cs with
  | nil => intro b; rfl
  | cons c rest ih =>
    intro b
    by_cases hc : isWsComma c = true <;>
      cases b <;> simp [collapseAux, runEraseAux, hc, ih]

/-- C9: two query texts that differ only in runs of whitespace/comma
characters normalize to the same cache key; parsing the second right
after a first parse that cached its document returns that same cached
document with the cache unchanged, for any parser — the external parser
is not consulted again. -/
theorem parseCache_hit_on_normalized (t1 t2 : String)
    (h : runErase t1 = runErase t2) :
    normalizeQuery t1 = normalizeQuery t2 ∧
    ∀ (B : Nat) (p : String → Except GQLError Document) (d1 : Document)
      (st1 : ParseCache),
      (normalizeQuery t1).length ≤ B →
      ParseCache.parse p (ParseCache.empty B) t1 = (.ok d1, st1) →
      ∀ p', ParseCache.parse p' st1 t2 = (.ok d1, st1) := by
  have hnorm : normalizeQuery t1 = normalizeQuery t2 := by
    unfold normalizeQuery
    rw [collapseAux_eq_map_runEraseAux t1.toList false,
      collapseAux_eq_map_runEraseAux t2.toList false]
    unfold runErase at h
    rw [h]
  refine ⟨hnorm, ?_⟩
  intro B p d1 st1 hle hparse
  cases hp : p (normalizeQuery t1) with
  | error e =>
    rw [show ParseCache.parse p (ParseCache.empty B) t1 = (.error e,
        ParseCache.empty B) by
      simp [ParseCache.parse, ParseCache.empty, hp]] at hparse
    cases hparse
  | ok node =>
    have hev : evictLoop B [(normalizeQuery t1, node)]
        (normalizeQuery t1).length =
        ([(normalizeQuery t1, node)], (normalizeQuery t1).length) := by
      simp [evictLoop, hle]
    rw [show ParseCache.parse p (ParseCache.empty B) t1 = (.ok node,
        { cache := [(normalizeQuery t1, node)],
          usedQueryLength := (normalizeQuery t1).length,
          queryLength := B }) by
      simp [ParseCache.parse, ParseCache.empty, hp, hev]] at hparse
    cases hparse
    intro p'
    simp [ParseCache.parse, ← hnorm, List.lookup]

/-- Witness for C9: `"{ a,  b }"` and `"{ a b }"` differ only in a
whitespace/comma run; after parsing the first, parsing the second hits
the cache even with a parser that always fails. -/
theorem parseCache_hit_on_normalized_witness :
    ParseCache.parse (fun _ => .error (.parseError "down"))
      (⟨[("{ a b }", [])], 7, 100⟩ : ParseCache) "{ a,  b }" =
      (.ok [], ⟨[("{ a b }", [])], 7, 100⟩) :=
  (parseCache_hit_on_normalized "{ a b }" "{ a,  b }" (by rfl)).2 100
    (fun _ => .ok []) [] ⟨[("{ a b }", [])], 7, 100⟩ (by decide) (by rfl)
    (fun _ => .error (.parseError "down"))

/-- C10: normalization collapses whitespace runs even inside quoted
string literals: `{ f(s: "a  b") }` and `{ f(s: "a b") }` get the same
cache key, so the second parse returns the first's cached document — the
written spacing of a string argument is not preserved by the cache key. -/
theorem parseCache_normalizes_inside_strings :
    normalizeQuery "\x7b f(s: \"a  b\") \x7d" = normalizeQuery "\x7b f(s: \"a b\") \x7d" ∧
    (ParseCache.parse (fun _ => .ok []) (ParseCache.empty 1000)
      "\x7b f(s: \"a  b\") \x7d").1 = .ok [] ∧
    ParseCache.parse (fun _ => .ok [.fragmentDefinition "other"])
      (ParseCache.parse (fun _ => .ok []) (ParseCache.empty 1000)
        "\x7b f(s: \"a  b\") \x7d").2 "\x7b f(s: \"a b\") \x7d" =
      (.ok [],
        (ParseCache.parse (fun _ => .ok []) (ParseCache.empty 1000)
          "\x7b f(s: \"a  b\") \x7d").2) :=
  ⟨rfl, rfl, rfl⟩

/-! ## C8: maximum selection depth -/

mutual

/-- Nesting depth of a selection node: a field with no sub-selection is at
depth 0; a field with a selection set is one deeper than its deepest
child. -/
def selDepth : Sel → Nat
  | .field _ _ _ _ none => 0
  | .field _ _ _ _ (some sels) => 1 + selsDepth sels
  | .fragmentSpread _ => 0
  | .inlineFragment => 0

/-- Deepest nesting among a list of selections. -/
def selsDepth : List Sel → Nat
  | [] => 0
  | s :: rest => Nat.max (selDepth s) (selsDepth rest)

end

/-- The value `this.maxDepth` holds after visiting one node: unchanged for
a leaf, otherwise the running maximum against the node's subtree depth
measured from `depth`. -/
def depthResult (node : Sel) (depth maxD : Nat) : Nat :=
  match node.selectionSet with
  | none => maxD
  | some sels => Nat.max maxD (depth + 1 + selsDepth sels)

/-- Rewriting `Nat.max` into linear arithmetic. -/
theorem nat_max_eq (a b : Nat) : Nat.max a b = if a ≤ b then b else a := by
  by_cases h : a ≤ b
  · rw [if_pos h]
    exact Nat.max_eq_right h
  · rw [if_neg h]
    exact Nat.max_eq_left (Nat.le_of_lt (Nat.lt_of_not_le h))

/-- The builder's running maximum is exactly the maximum of its incoming
value and the visited subtree's nesting depth. -/
theorem internalBuild_depth (vars : GraphQLVariables) :
    (∀ (node : Sel) (depth maxD : Nat),
      ∀ r, internalBuild vars node depth maxD = .ok r →
        r.2.2 = depthResult node depth maxD) ∧
    (∀ (sels : List Sel) (depth : Nat) (set : SelSet) (maxD : Nat),
      depth ≤ maxD →
      ∀ r, buildSelections vars sels depth set maxD = .ok r →
        r.2.2 = Nat.max maxD (depth + selsDepth sels)) := by
  refine internalBuild.mutual_induct vars
    (fun node depth maxD => ∀ r, internalBuild vars node depth maxD = .ok r →
      r.2.2 = depthResult node depth maxD)
    (fun sels depth set maxD => depth ≤ maxD →
      ∀ r, buildSelections vars sels depth set maxD = .ok r →
        r.2.2 = Nat.max maxD (depth + selsDepth sels))
    ?_ ?_ ?_ ?_ ?_ ?_ ?_ ?_ ?_
  · intro depth maxD al nm args dirs r h
    cases h
    rfl
  · intro depth maxD al nm args dirs selections d' m' ih r h
    obtain ⟨rA, rB, rC⟩ := r
    simp only [internalBuild] at h
    cases hb : buildSelections vars selections (depth + 1) []
        ((depth + 1).max maxD) with
    | error e =>
      simp [hb, Bind.bind, Except.bind, Functor.map, Except.map, Pure.pure, Except.pure] at h
    | ok r2 =>
      obtain ⟨sels2, set2, m⟩ := r2
      simp [hb, Bind.bind, Except.bind, Functor.map, Except.map, Pure.pure, Except.pure] at h
      obtain ⟨-, -, hC⟩ := h
      have hd : m = Nat.max ((depth + 1).max maxD)
          ((depth + 1) + selsDepth selections) :=
        ih (Nat.le_max_left _ _) _ hb
      simp only [depthResult, Sel.selectionSet, ← hC, hd]
      simp only [nat_max_eq]
      split_ifs <;> omega
  · intro depth maxD nm r h
    cases h
    rfl
  · intro depth maxD r h
    cases h
    rfl
  · intro depth set maxD hle r h
    cases h
    simp only [selsDepth, nat_max_eq]
    split_ifs <;> omega
  · intro depth set maxD rest name hle r h
    simp only [buildSelections] at h
    cases h
  · intro depth set maxD rest hle r h
    simp only [buildSelections] at h
    cases h
  · intro depth set maxD rest al nm args dirs sub hempty ih1 ih2 hle r h
    obtain ⟨rA, rB, rC⟩ := r
    simp only [buildSelections] at h
    rw [if_pos hempty] at h
    cases hib : internalBuild vars (.field al nm args dirs sub) depth maxD with
    | error e =>
      simp [hib, Bind.bind, Except.bind, Functor.map, Except.map, Pure.pure, Except.pure] at h
    | ok rib =>
      obtain ⟨sel2, sub2, m1⟩ := rib
      simp only [hib, Bind.bind, Except.bind, Functor.map, Except.map, Pure.pure, Except.pure] at h
      cases hrest : buildSelections vars rest depth
          (jsObjSet set nm (.mk none sub2 (sel2.withArguments args))) m1 with
      | error e =>
        simp [hrest, Bind.bind, Except.bind, Functor.map, Except.map, Pure.pure, Except.pure] at h
      | ok rr =>
        obtain ⟨rest2, setF, m2⟩ := rr
        simp [hrest, Bind.bind, Except.bind, Functor.map, Except.map, Pure.pure, Except.pure] at h
        obtain ⟨-, -, hC⟩ := h
        have hCC : rC = m2 := by omega
        have h1 := ih1 _ hib
        simp only [depthResult, Sel.selectionSet] at h1
        have hgoal : ((rA, rB, rC) : List Sel × SelSet × Nat).2.2 = rC := rfl
        cases sub with
        | none =>
          simp at h1
          have h2 : m2 = Nat.max m1 (depth + selsDepth rest) :=
            ih2 args none sel2 sub2 m1 (by omega) _ hrest
          rw [hgoal, hCC, h2, h1]
          simp only [selsDepth, selDepth, nat_max_eq]
          split_ifs <;> omega
        | some sels2 =>
          simp at h1
          have h2 : m2 = Nat.max m1 (depth + selsDepth rest) :=
            ih2 args none sel2 sub2 m1
              (by rw [h1]; exact le_trans hle (Nat.le_max_left _ _)) _ hrest
          rw [hgoal, hCC, h2, h1]
          simp only [selsDepth, selDepth, nat_max_eq]
          split_ifs <;> omega
  · intro depth set maxD rest al nm args dirs sub hempty ih1 ih2 hle r h
    obtain ⟨rA, rB, rC⟩ := r
    simp only [buildSelections] at h
    rw [if_neg hempty] at h
    cases hba : buildArgs vars args [] with
    | error e =>
      simp [hba, Bind.bind, Except.bind, Functor.map, Except.map, Pure.pure, Except.pure] at h
    | ok rba =>
      obtain ⟨args2, conv⟩ := rba
      simp only [hba, Bind.bind, Except.bind, Functor.map, Except.map, Pure.pure, Except.pure] at h
      cases hib : internalBuild vars (.field al nm args dirs sub) depth maxD with
      | error e =>
        simp [hib, Bind.bind, Except.bind, Functor.map, Except.map, Pure.pure, Except.pure] at h
      | ok rib =>
        obtain ⟨sel2, sub2, m1⟩ := rib
        simp only [hib, Bind.bind, Except.bind, Functor.map, Except.map, Pure.pure, Except.pure] at h
        cases hrest : buildSelections vars rest depth
            (jsObjSet set nm (.mk (some conv) sub2
              (sel2.withArguments args2))) m1 with
        | error e =>
          simp [hrest, Bind.bind, Except.bind, Functor.map, Except.map, Pure.pure, Except.pure] at h
        | ok rr =>
          obtain ⟨rest2, setF, m2⟩ := rr
          simp [hrest, Bind.bind, Except.bind, Functor.map, Except.map, Pure.pure, Except.pure] at h
          obtain ⟨-, -, hC⟩ := h
          have hCC : rC = m2 := by omega
          have h1 := ih1 _ hib
          simp only [depthResult, Sel.selectionSet] at h1
          have hgoal : ((rA, rB, rC) : List Sel × SelSet × Nat).2.2 = rC := rfl
          cases sub with
          | none =>
            simp at h1
            have h2 : m2 = Nat.max m1 (depth + selsDepth rest) :=
              ih2 args2 (some conv) sel2 sub2 m1 (by omega) _ hrest
            rw [hgoal, hCC, h2, h1]
            simp only [selsDepth, selDepth, nat_max_eq]
            split_ifs <;> omega
          | some sels2 =>
            simp at h1
            have h2 : m2 = Nat.max m1 (depth + selsDepth rest) :=
              ih2 args2 (some conv) sel2 sub2 m1
                (by rw [h1]; exact le_trans hle (Nat.le_max_left _ _)) _ hrest
            rw [hgoal, hCC, h2, h1]
            simp only [selsDepth, selDepth, nat_max_eq]
            split_ifs <;> omega

/-- A successful `SelectionContext.build` reports `maxDepth` equal to one
plus the deepest nesting among the top-level selections. -/
theorem build_maxDepth_eq (vars : GraphQLVariables) (ss : List Sel)
    (sn : SNode) (m : Nat)
    (h : SelectionContext.build vars ss = .ok (sn, m)) :
    m = 1 + selsDepth ss := by
  simp only [SelectionContext.build, Bind.bind, Except.bind, Pure.pure,
    Except.pure] at h
  cases hib : internalBuild vars (.field none "" [] [] (some ss)) 0 0 with
  | error e =>
    rw [hib] at h
    cases h
  | ok rib =>
    obtain ⟨n2, sub, mm⟩ := rib
    rw [hib] at h
    simp at h
    have hd := (internalBuild_depth vars).1 _ _ _ _ hib
    simp only [depthResult, Sel.selectionSet] at hd
    simp [nat_max_eq] at hd
    omega

/-- C8: a successfully built `ResolverContext` reports `maxDepth` equal to
the deepest nesting of selection sets under the executed operation (the
root selection node counts as depth 0, its direct children as depth 1);
in particular `{_}` yields 1 and a field nested three levels deep
yields 3. -/
theorem buildContext_maxDepth :
    (∀ (request : GraphQLRequest)
      (gp : String → Except GQLError Document) (ctx : ResolverContext),
      buildContext request gp = .ok ctx →
      ctx.maxDepth = 1 + selsDepth ctx.node.selectionSet) ∧
    (buildContext ⟨none, "{_}", none⟩ (fun _ =>
      .ok [.operationDefinition ⟨.query, none, [],
        [.field none "_" [] [] none]⟩])).map ResolverContext.maxDepth =
      .ok 1 ∧
    (buildContext ⟨none, "{a{b{c}}}", none⟩ (fun _ =>
      .ok [.operationDefinition ⟨.query, none, [],
        [.field none "a" [] [] (some [.field none "b" [] []
          (some [.field none "c" [] [] none])])]⟩])).map
      ResolverContext.maxDepth = .ok 3 := by
  refine ⟨?_, by rfl, by rfl⟩
  intro request gp ctx h
  simp only [buildContext, Bind.bind, Except.bind, Pure.pure,
    Except.pure] at h
  split at h
  · cases h
  · split at h
    · cases h
    · cases h
    · rename_i parsed heqp od heqf
      cases hv : buildVariables (request.vars.getD [])
          od.variableDefinitions [] with
      | error e =>
        simp [hv] at h
      | ok vars2 =>
        simp only [hv] at h
        cases hbd : SelectionContext.build vars2 od.selectionSet with
        | error e =>
          simp [hbd] at h
        | ok sm =>
          obtain ⟨sn, m⟩ := sm
          simp [hbd] at h
          subst h
          simpa using build_maxDepth_eq vars2 od.selectionSet sn m hbd

/-- Witness for C8: the theorem applied to the `{_}` example. -/
theorem buildContext_maxDepth_witness :
    ∃ ctx, buildContext ⟨none, "{_}", none⟩ (fun _ =>
      .ok [.operationDefinition ⟨.query, none, [],
        [.field none "_" [] [] none]⟩]) = .ok ctx ∧
      ctx.maxDepth = 1 + selsDepth ctx.node.selectionSet :=
  ⟨_, rfl, buildContext_maxDepth.1 ⟨none, "{_}", none⟩ (fun _ =>
    .ok [.operationDefinition ⟨.query, none, [],
      [.field none "_" [] [] none]⟩]) _ rfl⟩

/-! ## C2: variable references after the build -/

mutual

/-- Does a literal value node contain a `VariableRef` anywhere? -/
def valueHasVar : ValueNode → Bool
  | .varV _ => true
  | .objV fields => valueHasVarObj fields
  | .listV values => valueHasVarList values
  | _ => false

/-- Any `VariableRef` in a list of value nodes. -/
def valueHasVarList : List ValueNode → Bool
  | [] => false
  | v :: rest => valueHasVar v || valueHasVarList rest

/-- Any `VariableRef` in an object node's fields. -/
def valueHasVarObj : List (String × ValueNode) → Bool
  | [] => false
  | (_, v) :: rest => valueHasVar v || valueHasVarObj rest

end

/-- Any `VariableRef` among an argument list's values. -/
def argsHaveVar (args : List (String × ValueNode)) : Bool :=
  args.any (fun a => valueHasVar a.2)

/-- Any `VariableRef` among a directive list's argument values. -/
def dirsHaveVar (dirs : List (String × List (String × ValueNode))) : Bool :=
  dirs.any (fun d => argsHaveVar d.2)

mutual

/-- Does the syntax node contain a node of kind `VariableRef` anywhere —
in field arguments, directive arguments, or recursively below? -/
def selHasVarRef : Sel → Bool
  | .field _ _ args dirs none => argsHaveVar args || dirsHaveVar dirs
  | .field _ _ args dirs (some sels) =>
    argsHaveVar args || dirsHaveVar dirs || selsHaveVarRef sels
  | _ => false

/-- Any `VariableRef` in a list of selections. -/
def selsHaveVarRef : List Sel → Bool
  | [] => false
  | s :: rest => selHasVarRef s || selsHaveVarRef rest

end

mutual

/-- Every field-argument value in the subtree is `VariableRef`-free
(directive arguments are not inspected). -/
def selArgsVarFree : Sel → Bool
  | .field _ _ args _ none => !argsHaveVar args
  | .field _ _ args _ (some sels) => !argsHaveVar args && selsArgsVarFree sels
  | .fragmentSpread _ => true
  | .inlineFragment => true

/-- `selArgsVarFree` over a list of selections. -/
def selsArgsVarFree : List Sel → Bool
  | [] => true
  | s :: rest => selArgsVarFree s && selsArgsVarFree rest

end

/-- `selArgsVarFree` of an optional selection set. -/
def optSelsVarFree : Option (List Sel) → Bool
  | none => true
  | some sels => selsArgsVarFree sels

/-- Literal nodes produced by `convertVarToNode` never contain a
`VariableRef`: there is no native value that serializes to one. -/
theorem convertVarToNode_no_varRef :
    (∀ (v : GraphQLType) (l : ValueNode), convertVarToNode v = .ok l →
      valueHasVar l = false) ∧
    (∀ (o : List (String × GraphQLType)) (lo : List (String × ValueNode)),
      convertVarToNodeObj o = .ok lo → valueHasVarObj lo = false) ∧
    (∀ (vs : List GraphQLType) (ls : List ValueNode),
      convertVarToNodeList vs = .ok ls → valueHasVarList ls = false) := by
  refine convertVarToNode.mutual_induct
    (fun v => ∀ l, convertVarToNode v = .ok l → valueHasVar l = false)
    (fun o => ∀ lo, convertVarToNodeObj o = .ok lo →
      valueHasVarObj lo = false)
    (fun vs => ∀ ls, convertVarToNodeList vs = .ok ls →
      valueHasVarList ls = false)
    ?_ ?_ ?_ ?_ ?_ ?_ ?_ ?_ ?_ ?_ ?_ ?_ ?_ ?_ ?_
  · intro l h
    cases h
    rfl
  · intro vs ih l h
    cases hn : convertVarToNodeList vs with
    | error e => simp [convertVarToNode, hn, Bind.bind, Except.bind] at h
    | ok ns =>
      simp [convertVarToNode, hn, Bind.bind, Except.bind, Pure.pure,
        Except.pure] at h
      subst h
      simp [valueHasVar, ih ns hn]
  · intro l h
    simp [convertVarToNode] at h
  · intro l h
    simp [convertVarToNode] at h
  · intro s hs l h
    simp [convertVarToNode, hs] at h
    subst h
    rfl
  · intro fields ih l h
    cases hn : convertVarToNodeObj fields with
    | error e => simp [convertVarToNode, hn, Bind.bind, Except.bind] at h
    | ok ns =>
      simp [convertVarToNode, hn, Bind.bind, Except.bind, Pure.pure,
        Except.pure] at h
      subst h
      simp [valueHasVar, ih ns hn]
  · intro b l h
    cases h
    rfl
  · intro q hq l h
    simp [convertVarToNode, hq] at h
    subst h
    rfl
  · intro q hq l h
    simp [convertVarToNode, hq] at h
    subst h
    rfl
  · intro n l h
    cases h
    rfl
  · intro s l h
    cases h
    rfl
  · intro ls h
    cases h
    rfl
  · intro v rest ihv ihrest ls h
    cases hv : convertVarToNode v with
    | error e => simp [convertVarToNodeList, hv, Bind.bind, Except.bind] at h
    | ok n =>
      cases hr : convertVarToNodeList rest with
      | error e =>
        simp [convertVarToNodeList, hv, hr, Bind.bind, Except.bind] at h
      | ok ns =>
        simp [convertVarToNodeList, hv, hr, Bind.bind, Except.bind,
          Pure.pure, Except.pure] at h
        subst h
        simp [valueHasVarList, ihv n hv, ihrest ns hr]
  · intro lo h
    cases h
    rfl
  · intro k v rest ihv ihrest lo h
    cases hv : convertVarToNode v with
    | error e => simp [convertVarToNodeObj, hv, Bind.bind, Except.bind] at h
    | ok n =>
      cases hr : convertVarToNodeObj rest with
      | error e =>
        simp [convertVarToNodeObj, hv, hr, Bind.bind, Except.bind] at h
      | ok ns =>
        simp [convertVarToNodeObj, hv, hr, Bind.bind, Except.bind,
          Pure.pure, Except.pure] at h
        subst h
        simp [valueHasVarObj, ihv n hv, ihrest ns hr]

/-- The rewritten argument list returned by `buildArgs` is
`VariableRef`-free: every argument value was replaced by the
re-serialization of its resolved native value. -/
theorem buildArgs_no_varRef (vars : GraphQLVariables) :
    ∀ (args : List (String × ValueNode)) (acc : List (String × GraphQLType))
      (r : List (String × ValueNode) × List (String × GraphQLType)),
      buildArgs vars args acc = .ok r → argsHaveVar r.1 = false := by
  intro args
  induction args with
  | nil =>
    intro acc r h
    cases h
    rfl
  | cons a rest ih =>
    intro acc r h
    obtain ⟨r1, r2⟩ := r
    obtain ⟨aname, avalue⟩ := a
    cases hc : convertNodeToVar avalue vars with
    | error e => simp [buildArgs, hc, Bind.bind, Except.bind] at h
    | ok jsArg =>
      cases hn : convertVarToNode jsArg with
      | error e =>
        simp [buildArgs, hc, hn, Bind.bind, Except.bind] at h
      | ok node =>
        cases hr : buildArgs vars rest (jsObjSet acc aname jsArg) with
        | error e =>
          simp [buildArgs, hc, hn, hr, Bind.bind, Except.bind] at h
        | ok rr =>
          obtain ⟨rest2, accF⟩ := rr
          simp [buildArgs, hc, hn, hr, Bind.bind, Except.bind, Pure.pure,
            Except.pure] at h
          have hv := convertVarToNode_no_varRef.1 jsArg node hn
          have hrest := ih (jsObjSet acc aname jsArg) (rest2, accF) hr
          simp only [argsHaveVar] at hrest
          simp [argsHaveVar, ← h.1, hv, hrest]

/-- After a successful build, every rewritten field node keeps its alias,
name, arguments and directives, and every field-argument value in its
rewritten sub-selections is `VariableRef`-free. -/
theorem internalBuild_varFree (vars : GraphQLVariables) :
    (∀ (node : Sel) (depth maxD : Nat),
      ∀ r, internalBuild vars node depth maxD = .ok r →
        ∀ al nm args dirs sub, node = .field al nm args dirs sub →
          ∃ ss, r.1 = .field al nm args dirs ss ∧ optSelsVarFree ss = true) ∧
    (∀ (sels : List Sel) (depth : Nat) (set : SelSet) (maxD : Nat),
      ∀ r, buildSelections vars sels depth set maxD = .ok r →
        selsArgsVarFree r.1 = true) := by
  refine internalBuild.mutual_induct vars
    (fun node depth maxD => ∀ r, internalBuild vars node depth maxD = .ok r →
      ∀ al nm args dirs sub, node = .field al nm args dirs sub →
        ∃ ss, r.1 = .field al nm args dirs ss ∧ optSelsVarFree ss = true)
    (fun sels depth set maxD =>
      ∀ r, buildSelections vars sels depth set maxD = .ok r →
        selsArgsVarFree r.1 = true)
    ?_ ?_ ?_ ?_ ?_ ?_ ?_ ?_ ?_
  · intro depth maxD al nm args dirs r h al2 nm2 args2 dirs2 sub2 he
    cases h
    cases he
    exact ⟨none, rfl, rfl⟩
  · intro depth maxD al nm args dirs selections d' m' ih r h al2 nm2 args2
      dirs2 sub2 he
    cases he
    obtain ⟨rA, rB, rC⟩ := r
    simp only [internalBuild] at h
    cases hb : buildSelections vars selections (depth + 1) []
        ((depth + 1).max maxD) with
    | error e =>
      simp [hb, Bind.bind, Except.bind] at h
    | ok r2 =>
      obtain ⟨sels2, set2, m⟩ := r2
      simp [hb, Bind.bind, Except.bind, Pure.pure, Except.pure] at h
      obtain ⟨hA, -, -⟩ := h
      refine ⟨some sels2, by rw [← hA], ?_⟩
      simpa [optSelsVarFree] using ih _ hb
  · intro depth maxD nm r h al nm2 args dirs sub he
    cases he
  · intro depth maxD r h al nm args dirs sub he
    cases he
  · intro depth set maxD r h
    cases h
    rfl
  · intro depth set maxD rest name r h
    simp only [buildSelections] at h
    cases h
  · intro depth set maxD rest r h
    simp only [buildSelections] at h
    cases h
  · intro depth set maxD rest al nm args dirs sub hempty ih1 ih2 r h
    obtain ⟨rA, rB, rC⟩ := r
    simp only [buildSelections] at h
    rw [if_pos hempty] at h
    cases hib : internalBuild vars (.field al nm args dirs sub) depth maxD with
    | error e =>
      simp [hib, Bind.bind, Except.bind, Functor.map, Except.map, Pure.pure, Except.pure] at h
    | ok rib =>
      obtain ⟨sel2, sub2, m1⟩ := rib
      simp only [hib, Bind.bind, Except.bind, Functor.map, Except.map, Pure.pure, Except.pure] at h
      cases hrest : buildSelections vars rest depth
          (jsObjSet set nm (.mk none sub2 (sel2.withArguments args))) m1 with
      | error e =>
        simp [hrest, Bind.bind, Except.bind, Functor.map, Except.map, Pure.pure, Except.pure] at h
      | ok rr =>
        obtain ⟨rest2, setF, m2⟩ := rr
        simp [hrest, Bind.bind, Except.bind, Functor.map, Except.map, Pure.pure, Except.pure] at h
        obtain ⟨hA, -, -⟩ := h
        obtain ⟨ss, hss, hssf⟩ := ih1 _ hib al nm args dirs sub rfl
        have hargs : args = [] := List.isEmpty_iff.mp hempty
        rw [← hA]
        simp only [selsArgsVarFree]
        have hfin : sel2.withArguments args = .field al nm args dirs ss := by
          rw [show sel2 = (sel2, sub2, m1).1 from rfl, hss]
          rfl
        rw [hfin]
        have hrest2 := ih2 args none sel2 sub2 m1 _ hrest
        simp only at hrest2
        cases ss with
        | none =>
          simp [selArgsVarFree, hargs, argsHaveVar, hrest2]
        | some sels3 =>
          simp only [optSelsVarFree] at hssf
          simp [selArgsVarFree, hargs, argsHaveVar, hssf, hrest2]
  · intro depth set maxD rest al nm args dirs sub hempty ih1 ih2 r h
    obtain ⟨rA, rB, rC⟩ := r
    simp only [buildSelections] at h
    rw [if_neg hempty] at h
    cases hba : buildArgs vars args [] with
    | error e =>
      simp [hba, Bind.bind, Except.bind, Functor.map, Except.map, Pure.pure, Except.pure] at h
    | ok rba =>
      obtain ⟨args2, conv⟩ := rba
      simp only [hba, Bind.bind, Except.bind, Functor.map, Except.map, Pure.pure, Except.pure] at h
      cases hib : internalBuild vars (.field al nm args dirs sub) depth maxD with
      | error e =>
        simp [hib, Bind.bind, Except.bind, Functor.map, Except.map, Pure.pure, Except.pure] at h
      | ok rib =>
        obtain ⟨sel2, sub2, m1⟩ := rib
        simp only [hib, Bind.bind, Except.bind, Functor.map, Except.map, Pure.pure, Except.pure] at h
        cases hrest : buildSelections vars rest depth
            (jsObjSet set nm (.mk (some conv) sub2
              (sel2.withArguments args2))) m1 with
        | error e =>
          simp [hrest, Bind.bind, Except.bind, Functor.map, Except.map, Pure.pure, Except.pure] at h
        | ok rr =>
          obtain ⟨rest2, setF, m2⟩ := rr
          simp [hrest, Bind.bind, Except.bind, Functor.map, Except.map, Pure.pure, Except.pure] at h
          obtain ⟨hA, -, -⟩ := h
          obtain ⟨ss, hss, hssf⟩ := ih1 _ hib al nm args dirs sub rfl
          have hargs2 : argsHaveVar args2 = false :=
            buildArgs_no_varRef vars args [] (args2, conv) hba
          rw [← hA]
          simp only [selsArgsVarFree]
          have hfin : sel2.withArguments args2 = .field al nm args2 dirs ss := by
            rw [show sel2 = (sel2, sub2, m1).1 from rfl, hss]
            rfl
          rw [hfin]
          have hrest2 := ih2 args2 (some conv) sel2 sub2 m1 _ hrest
          simp only at hrest2
          cases ss with
          | none =>
            simp [selArgsVarFree, hargs2, hrest2]
          | some sels3 =>
            simp only [optSelsVarFree] at hssf
            simp [selArgsVarFree, hargs2, hssf, hrest2]

/-- C2 (amended): after a successful build, every field-argument value
anywhere in the backing syntax node of the returned root `SelectionNode`
is a concrete literal — no field argument contains a `VariableRef`.
(Directive arguments are not rewritten and are exempt.) -/
theorem build_args_varFree (vars : GraphQLVariables) (ss : List Sel)
    (sn : SNode) (m : Nat)
    (h : SelectionContext.build vars ss = .ok (sn, m)) :
    selArgsVarFree sn.node = true := by
  simp only [SelectionContext.build, Bind.bind, Except.bind, Pure.pure,
    Except.pure] at h
  cases hib : internalBuild vars (.field none "" [] [] (some ss)) 0 0 with
  | error e =>
    rw [hib] at h
    cases h
  | ok rib =>
    obtain ⟨n2, sub, mm⟩ := rib
    rw [hib] at h
    simp at h
    obtain ⟨hsn, -⟩ := h
    obtain ⟨ss2, hss, hfree⟩ := (internalBuild_varFree vars).1 _ _ _ _ hib
      none "" [] [] (some ss) rfl
    rw [← hsn]
    show selArgsVarFree n2 = true
    rw [show n2 = ((n2, sub, mm) : Sel × Option SelSet × Nat).1 from rfl, hss]
    cases ss2 with
    | none => rfl
    | some sels2 =>
      simp only [optSelsVarFree] at hfree
      simp [selArgsVarFree, argsHaveVar, hfree]

/-- Witness for C2's amended theorem: building `{ f(n: $x) }` with
`x ↦ 1` leaves no `VariableRef` in any field argument. -/
theorem build_args_varFree_witness :
    ∃ sn m, SelectionContext.build [("x", .numT 1)]
        [.field none "f" [("n", .varV "x")] [] none] = .ok (sn, m) ∧
      selArgsVarFree sn.node = true :=
  ⟨_, _, rfl, build_args_varFree [("x", .numT 1)]
    [.field none "f" [("n", .varV "x")] [] none] _ _ rfl⟩

/-- C2 counterexample: a variable reference inside a directive argument
(`{ f @skip(if: $x) }`) survives the build — the returned root's backing
syntax tree still contains a node of kind `VariableRef`, because the
builder rewrites only field arguments, never directive arguments. -/
theorem build_directive_keeps_varRef :
    (SelectionContext.build [("x", .boolT true)]
      [.field none "f" [] [("skip", [("if", .varV "x")])] none]).map
      (fun r => selHasVarRef r.1.node) = .ok true := by rfl

/-! ## C7: selection-set keys and order -/

/-- Repeated JS object assignment, left to right. -/
def jsObjSetAll (set : SelSet) : List (String × SNode) → SelSet
  | [] => set
  | (k, v) :: rest => jsObjSetAll (jsObjSet set k v) rest

/-- Assigning a key that is not present appends the entry. -/
theorem jsObjSet_notmem {α : Type} (l : List (String × α)) (k : String)
    (v : α) (h : k ∉ l.map Prod.fst) : jsObjSet l k v = l ++ [(k, v)] := by
  unfold jsObjSet
  rw [if_neg]
  simp only [List.any_eq_true, decide_eq_true_eq, not_exists]
  intro p hp
  exact h (hp.2 ▸ List.mem_map_of_mem Prod.fst hp.1)

/-- Assigning pairwise-distinct fresh keys appends them in order. -/
theorem jsObjSetAll_append :
    ∀ (entries : List (String × SNode)) (set : SelSet),
      (∀ e ∈ entries, e.1 ∉ set.map Prod.fst) →
      (entries.map Prod.fst).Nodup →
      jsObjSetAll set entries = set ++ entries := by
  intro entries
  induction entries with
  | nil =>
    intro set _ _
    simp [jsObjSetAll]
  | cons e rest ih =>
    intro set hdisj hnodup
    obtain ⟨k, v⟩ := e
    have hk : k ∉ set.map Prod.fst := hdisj (k, v) (by simp)
    simp only [jsObjSetAll, jsObjSet_notmem set k v hk]
    rw [ih (set ++ [(k, v)]) ?_ ?_]
    · simp
    · intro p hp
      simp only [List.map_append, List.mem_append]
      rintro (hmem | hmem)
      · exact hdisj p (by simp [hp]) hmem
      · simp only [List.map_cons, List.map_nil, List.mem_singleton] at hmem
        simp only [List.map_cons, List.nodup_cons] at hnodup
        exact hnodup.1 (hmem ▸ List.mem_map_of_mem Prod.fst hp)
    · simp only [List.map_cons, List.nodup_cons] at hnodup
      exact hnodup.2

/-- The set built by the selection loop: one entry per selection, keyed by
the field's name (`sel.name.value`), in query order, each entry's backing
node being that selection's rewritten node. -/
theorem buildSelections_entries (vars : GraphQLVariables) :
    (∀ (node : Sel) (depth maxD : Nat), True) ∧
    (∀ (sels : List Sel) (depth : Nat) (set : SelSet) (maxD : Nat),
      ∀ r, buildSelections vars sels depth set maxD = .ok r →
        ∃ entries : List (String × SNode),
          entries.map Prod.fst = sels.map Sel.name ∧
          entries.map (fun e => e.2.node) = r.1 ∧
          r.2.1 = jsObjSetAll set entries) := by
  refine internalBuild.mutual_induct vars
    (fun _ _ _ => True)
    (fun sels depth set maxD =>
      ∀ r, buildSelections vars sels depth set maxD = .ok r →
        ∃ entries : List (String × SNode),
          entries.map Prod.fst = sels.map Sel.name ∧
          entries.map (fun e => e.2.node) = r.1 ∧
          r.2.1 = jsObjSetAll set entries)
    ?_ ?_ ?_ ?_ ?_ ?_ ?_ ?_ ?_
  · intro _ _ _ _ _ _
    trivial
  · intro _ _ _ _ _ _ _ _ _ _
    trivial
  · intro _ _ _
    trivial
  · intro _ _
    trivial
  · intro depth set maxD r h
    cases h
    exact ⟨[], rfl, rfl, rfl⟩
  · intro depth set maxD rest name r h
    simp only [buildSelections] at h
    cases h
  · intro depth set maxD rest r h
    simp only [buildSelections] at h
    cases h
  · intro depth set maxD rest al nm args dirs sub hempty ih1 ih2 r h
    obtain ⟨rA, rB, rC⟩ := r
    simp only [buildSelections] at h
    rw [if_pos hempty] at h
    cases hib : internalBuild vars (.field al nm args dirs sub) depth maxD with
    | error e =>
      simp [hib, Bind.bind, Except.bind, Functor.map, Except.map, Pure.pure,
        Except.pure] at h
    | ok rib =>
      obtain ⟨sel2, sub2, m1⟩ := rib
      simp only [hib, Bind.bind, Except.bind, Functor.map, Except.map,
        Pure.pure, Except.pure] at h
      cases hrest : buildSelections vars rest depth
          (jsObjSet set nm (.mk none sub2 (sel2.withArguments args))) m1 with
      | error e =>
        simp [hrest] at h
      | ok rr =>
        obtain ⟨rest2, setF, m2⟩ := rr
        simp [hrest] at h
        obtain ⟨hA, hB, -⟩ := h
        obtain ⟨entries, he1, he2, he3⟩ := ih2 args none sel2 sub2 m1 _ hrest
        refine ⟨(nm, .mk none sub2 (sel2.withArguments args)) :: entries,
          ?_, ?_, ?_⟩
        · simp [he1, Sel.name]
        · simp only [List.map_cons, he2, ← hA]
          rfl
        · rw [← hB]
          simpa [jsObjSetAll] using he3
  · intro depth set maxD rest al nm args dirs sub hempty ih1 ih2 r h
    obtain ⟨rA, rB, rC⟩ := r
    simp only [buildSelections] at h
    rw [if_neg hempty] at h
    cases hba : buildArgs vars args [] with
    | error e =>
      simp [hba, Bind.bind, Except.bind, Functor.map, Except.map, Pure.pure,
        Except.pure] at h
    | ok rba =>
      obtain ⟨args2, conv⟩ := rba
      simp only [hba, Bind.bind, Except.bind, Functor.map, Except.map,
        Pure.pure, Except.pure] at h
      cases hib : internalBuild vars (.field al nm args dirs sub) depth maxD with
      | error e =>
        simp [hib, Bind.bind, Except.bind, Functor.map, Except.map,
          Pure.pure, Except.pure] at h
      | ok rib =>
        obtain ⟨sel2, sub2, m1⟩ := rib
        simp only [hib, Bind.bind, Except.bind, Functor.map, Except.map,
          Pure.pure, Except.pure] at h
        cases hrest : buildSelections vars rest depth
            (jsObjSet set nm (.mk (some conv) sub2
              (sel2.withArguments args2))) m1 with
        | error e =>
          simp [hrest] at h
        | ok rr =>
          obtain ⟨rest2, setF, m2⟩ := rr
          simp [hrest] at h
          obtain ⟨hA, hB, -⟩ := h
          obtain ⟨entries, he1, he2, he3⟩ :=
            ih2 args2 (some conv) sel2 sub2 m1 _ hrest
          refine ⟨(nm, .mk (some conv) sub2 (sel2.withArguments args2)) ::
            entries, ?_, ?_, ?_⟩
          · simp [he1, Sel.name]
          · simp only [List.map_cons, he2, ← hA]
            rfl
          · rw [← hB]
            simpa [jsObjSetAll] using he3

/-- C7 (amended): for a selection set of plain fields with pairwise
distinct names, the built `SelectionSet` has exactly one entry per field,
keyed by the field's name — the alias, if any, is ignored — in the order
the fields appear in the query, and each entry's `SelectionNode` backs
the corresponding (rewritten) field node. -/
theorem build_selectionSet_keys
    (vars : GraphQLVariables) (ss : List Sel) (sn : SNode) (m : Nat)
    (h : SelectionContext.build vars ss = .ok (sn, m))
    (hnodup : (ss.map Sel.name).Nodup) :
    ∃ set sels2, sn.sub = some set ∧
      sn.node.selectionSet = some sels2 ∧
      set.map Prod.fst = ss.map Sel.name ∧
      set.map (fun e => e.2.node) = sels2 := by
  simp only [SelectionContext.build, internalBuild, Bind.bind, Except.bind,
    Pure.pure, Except.pure] at h
  cases hb : buildSelections vars ss (0 + 1) [] (Nat.max (0 + 1) 0) with
  | error e =>
    rw [hb] at h
    cases h
  | ok rb =>
    obtain ⟨sels2, set2, m2⟩ := rb
    rw [hb] at h
    simp at h
    obtain ⟨hsn, -⟩ := h
    obtain ⟨entries, he1, he2, he3⟩ := (buildSelections_entries vars).2 ss
      (0 + 1) [] (Nat.max (0 + 1) 0) _ hb
    have hset : set2 = entries := by
      have happ := jsObjSetAll_append entries [] (by simp)
        (by rw [he1]; exact hnodup)
      simp only at he3
      rw [he3, happ]
      simp
    refine ⟨set2, sels2, ?_, ?_, ?_, ?_⟩
    · rw [← hsn]
      rfl
    · rw [← hsn]
      rfl
    · rw [hset, he1]
    · rw [hset]
      simpa using he2

/-- Witness for C7: two sibling fields `a`, `b` yield the entries
`["a", "b"]` in query order. -/
theorem build_selectionSet_keys_witness :
    ∃ sn, SelectionContext.build []
        [.field none "a" [] [] none, .field none "b" [] [] none] =
          .ok (sn, 1) ∧
      ∃ set sels2, sn.sub = some set ∧ sn.node.selectionSet = some sels2 ∧
        set.map Prod.fst = ["a", "b"] ∧
        set.map (fun e => e.2.node) = sels2 := by
  obtain ⟨set, sels2, h1, h2, h3, h4⟩ := build_selectionSet_keys []
    [.field none "a" [] [] none, .field none "b" [] [] none] _ 1 rfl
    (by decide)
  exact ⟨_, rfl, set, sels2, h1, h2, by simpa [Sel.name] using h3, h4⟩

/-- C7 counterexample: the query `{ x: f }` (field `f` aliased as `x`)
produces a selection set keyed by the field name `"f"`, not by the alias
`"x"` — the builder always keys by `sel.name.value` and never reads the
alias. -/
theorem build_ignores_alias :
    (SelectionContext.build [] [.field (some "x") "f" [] [] none]).map
      (fun r => r.1.sub.map (fun set => set.map Prod.fst)) =
      .ok (some ["f"]) ∧
    (SelectionContext.build [] [.field (some "x") "f" [] [] none]).map
      (fun r => r.1.sub.map (fun set => (set.map Prod.fst).contains "x")) =
      .ok (some false) :=
  ⟨rfl, rfl⟩

/-! ## C5: effective variable bindings -/

/-- Looking up the assigned key after a JS object assignment yields the
assigned value. -/
theorem lookup_jsObjSet_self {α : Type} :
    ∀ (l : List (String × α)) (k : String) (v : α),
      (jsObjSet l k v).lookup k = some v := by
  intro l k v
  unfold jsObjSet
  by_cases hany : l.any (fun p => decide (p.1 = k)) = true
  · rw [if_pos (by simpa using hany)]
    induction l with
    | nil => simp at hany
    | cons p rest ih =>
      simp only [List.any_cons, Bool.or_eq_true, decide_eq_true_eq] at hany
      by_cases hp : p.1 = k
      · simp only [List.map_cons, if_pos hp]
        rw [List.lookup_cons]
        simp
      · have hrest : rest.any (fun p => decide (p.1 = k)) = true := by
          rcases hany with h | h
          · exact absurd h hp
          · simpa using h
        simp only [List.map_cons, if_neg hp]
        rw [List.lookup_cons]
        have hk : (k == p.1) = false := by
          simp only [beq_eq_false_iff_ne, ne_eq]
          exact fun he => hp he.symm
        simp only [hk]
        exact ih hrest
  · rw [if_neg (by simpa using hany)]
    induction l with
    | nil => simp
    | cons p rest ih =>
      simp only [List.any_cons, Bool.or_eq_true, decide_eq_true_eq,
        not_or] at hany
      obtain ⟨h1, h2⟩ := hany
      rw [List.cons_append, List.lookup_cons]
      have hk : (k == p.1) = false := by
        simp only [beq_eq_false_iff_ne, ne_eq]
        exact fun he => h1 he.symm
      simp only [hk]
      exact ih (by simpa using h2)

/-- A JS object assignment does not disturb lookups of other keys. -/
theorem lookup_jsObjSet_ne {α : Type} :
    ∀ (l : List (String × α)) (k : String) (v : α) (k2 : String),
      k2 ≠ k → (jsObjSet l k v).lookup k2 = l.lookup k2 := by
  intro l k v k2 hne
  unfold jsObjSet
  by_cases hany : l.any (fun p => decide (p.1 = k)) = true
  · rw [if_pos (by simpa using hany)]
    clear hany
    induction l with
    | nil => simp
    | cons p rest ih =>
      by_cases hp : p.1 = k
      · simp only [List.map_cons, if_pos hp]
        rw [List.lookup_cons, List.lookup_cons]
        have hk1 : (k2 == k) = false := by
          simp only [beq_eq_false_iff_ne, ne_eq]
          exact hne
        have hk2 : (k2 == p.1) = false := by
          simp only [beq_eq_false_iff_ne, ne_eq]
          rw [hp]
          exact hne
        simp only [hk1, hk2]
        exact ih
      · simp only [List.map_cons, if_neg hp]
        rw [List.lookup_cons, List.lookup_cons]
        cases hpk : k2 == p.1 with
        | true => rfl
        | false => exact ih
  · rw [if_neg (by simpa using hany)]
    clear hany
    induction l with
    | nil =>
      have hk : (k2 == k) = false := by
        simp only [beq_eq_false_iff_ne, ne_eq]
        exact hne
      simp [List.lookup, hk]
    | cons p rest ih =>
      rw [List.cons_append, List.lookup_cons, List.lookup_cons]
      cases hpk : k2 == p.1 with
      | true => rfl
      | false => exact ih

/-- Processing declarations never touches bindings for names outside the
declaration list. -/
theorem buildVariables_lookup_notmem (reqVars : GraphQLVariables) :
    ∀ (decls : List VariableDefinition) (acc vs : GraphQLVariables),
      buildVariables reqVars decls acc = .ok vs →
      ∀ k, k ∉ decls.map VariableDefinition.name →
        vs.lookup k = acc.lookup k := by
  intro decls
  induction decls with
  | nil =>
    intro acc vs h k _
    cases h
    rfl
  | cons vd rest ih =>
    intro acc vs h k hk
    simp only [List.map_cons, List.mem_cons, not_or] at hk
    obtain ⟨hk1, hk2⟩ := hk
    cases hl : reqVars.lookup vd.name with
    | some v =>
      simp only [buildVariables, hl] at h
      rw [ih _ _ h k hk2, lookup_jsObjSet_ne _ _ _ _ hk1]
    | none =>
      cases hd : vd.defaultValue with
      | some dv =>
        cases hc : convertNodeToVar dv [] with
        | error e =>
          simp [buildVariables, hl, hd, hc, Bind.bind, Except.bind] at h
        | ok w =>
          simp only [buildVariables, hl, hd, hc, Bind.bind,
            Except.bind] at h
          rw [ih _ _ h k hk2, lookup_jsObjSet_ne _ _ _ _ hk1]
      | none =>
        simp only [buildVariables, hl, hd] at h
        exact ih _ _ h k hk2

/-- The effective bindings: for each declared variable (with distinct
declaration names), the caller-supplied binding wins whenever present,
else the default literal evaluated with empty bindings, else the
accumulator's (initially absent) binding. -/
theorem buildVariables_spec (reqVars : GraphQLVariables) :
    ∀ (decls : List VariableDefinition) (acc vs : GraphQLVariables),
      (decls.map VariableDefinition.name).Nodup →
      buildVariables reqVars decls acc = .ok vs →
      ∀ vd ∈ decls, vs.lookup vd.name =
        match reqVars.lookup vd.name with
        | some v => some v
        | none =>
          match vd.defaultValue with
          | some dv => (convertNodeToVar dv []).toOption
          | none => acc.lookup vd.name := by
  intro decls
  induction decls with
  | nil =>
    intro acc vs _ _ vd hvd
    cases hvd
  | cons vd0 rest ih =>
    intro acc vs hnodup h vd hvd
    simp only [List.map_cons, List.nodup_cons] at hnodup
    obtain ⟨hn1, hn2⟩ := hnodup
    rcases List.mem_cons.mp hvd with rfl | hmem
    · cases hl : reqVars.lookup vd.name with
      | some v =>
        simp only [buildVariables, hl] at h
        rw [buildVariables_lookup_notmem reqVars rest _ _ h vd.name hn1,
          lookup_jsObjSet_self]
      | none =>
        cases hd : vd.defaultValue with
        | some dv =>
          cases hc : convertNodeToVar dv [] with
          | error e =>
            simp [buildVariables, hl, hd, hc, Bind.bind, Except.bind] at h
          | ok w =>
            simp only [buildVariables, hl, hd, hc, Bind.bind,
              Except.bind] at h
            rw [buildVariables_lookup_notmem reqVars rest _ _ h vd.name hn1,
              lookup_jsObjSet_self]
            simp [hc, Except.toOption]
        | none =>
          simp only [buildVariables, hl, hd] at h
          rw [buildVariables_lookup_notmem reqVars rest _ _ h vd.name hn1]
    · have hne : vd.name ≠ vd0.name := by
        intro he
        exact hn1 (he ▸ List.mem_map_of_mem VariableDefinition.name hmem)
      cases hl : reqVars.lookup vd0.name with
      | some v =>
        simp only [buildVariables, hl] at h
        rw [ih _ _ hn2 h vd hmem, lookup_jsObjSet_ne _ _ _ _ hne]
      | none =>
        cases hd : vd0.defaultValue with
        | some dv =>
          cases hc : convertNodeToVar dv [] with
          | error e =>
            simp [buildVariables, hl, hd, hc, Bind.bind, Except.bind] at h
          | ok w =>
            simp only [buildVariables, hl, hd, hc, Bind.bind,
              Except.bind] at h
            rw [ih _ _ hn2 h vd hmem, lookup_jsObjSet_ne _ _ _ _ hne]
        | none =>
          simp only [buildVariables, hl, hd] at h
          exact ih _ _ hn2 h vd hmem

/-- The parsed document of `query($x: Int = 1){ f(n: $x) }`: one query
operation declaring `$x` with default literal `1`, selecting `f` with
argument `n: $x`. -/
def exampleQueryDoc : Document :=
  [.operationDefinition ⟨.query, none, [⟨"x", some (.intV 1)⟩],
    [.field none "f" [("n", .varV "x")] [] none]⟩]

/-- The resolved native value of `f`'s argument `n` in a built context. -/
def argN (ctx : ResolverContext) : Option GraphQLType :=
  ctx.selection.sub.bind fun set => (set.lookup "f").bind fun o =>
    o.args.bind fun a => a.lookup "n"

/-- C5: `buildContext` builds the effective bindings by taking, for each
declared variable in order (distinct names), the caller-supplied binding
whenever it is present — even a bound `null` —, else the evaluated
default literal (with empty bindings), else leaving the name unbound; in
particular `query($x: Int = 1){ f(n: $x) }` resolves `f`'s argument `n`
to native `5` when `{x: 5}` is supplied and to native `1` (the default)
when `x` is not supplied. -/
theorem buildContext_bindings :
    (∀ (reqVars : GraphQLVariables) (decls : List VariableDefinition)
      (vs : GraphQLVariables),
      (decls.map VariableDefinition.name).Nodup →
      buildVariables reqVars decls [] = .ok vs →
      ∀ vd ∈ decls, vs.lookup vd.name =
        match reqVars.lookup vd.name with
        | some v => some v
        | none =>
          match vd.defaultValue with
          | some dv => (convertNodeToVar dv []).toOption
          | none => none) ∧
    (buildContext ⟨none, "query($x: Int = 1){ f(n: $x) }",
      some [("x", .numT 5)]⟩ (fun _ => .ok exampleQueryDoc)).map argN =
      .ok (some (.numT 5)) ∧
    (buildContext ⟨none, "query($x: Int = 1){ f(n: $x) }", none⟩
      (fun _ => .ok exampleQueryDoc)).map argN = .ok (some (.numT 1)) := by
  refine ⟨?_, by rfl, by rfl⟩
  intro reqVars decls vs hnodup h vd hvd
  rw [buildVariables_spec reqVars decls [] vs hnodup h vd hvd]
  rfl

/-- Witness for C5: with `$x` declared with default `1` and a supplied
binding `x ↦ null`, the supplied `null` wins over the default. -/
theorem buildContext_bindings_witness :
    ∃ vs, buildVariables [("x", GraphQLType.nullT)]
        [⟨"x", some (.intV 1)⟩] [] = .ok vs ∧
      vs.lookup "x" = some .nullT := by
  refine ⟨[("x", .nullT)], by rfl, ?_⟩
  have h := buildContext_bindings.1 [("x", .nullT)]
    [⟨"x", some (.intV 1)⟩] [("x", .nullT)] (by decide) (by rfl)
    ⟨"x", some (.intV 1)⟩ (by simp)
  simpa [List.lookup] using h

/-! ## C1: the literal/native round trip -/

/-- Pairwise-distinct keys of a JS object. -/
def distinctKeys : List String → Bool
  | [] => true
  | k :: rest => !rest.contains k && distinctKeys rest

mutual

/-- The claim's "supported NativeValue with defined behavior": symbols
carry a non-empty description, objects are string-keyed maps (distinct
keys), recursively. -/
def claimSupported : GraphQLType → Bool
  | .nullT => true
  | .boolT _ => true
  | .numT _ => true
  | .bigintT _ => true
  | .strT _ => true
  | .symT none => false
  | .symT (some s) => !(s == "")
  | .listT vs => claimSupportedList vs
  | .objT fs => distinctKeys (fs.map Prod.fst) && claimSupportedObj fs

/-- `claimSupported` over a list. -/
def claimSupportedList : List GraphQLType → Bool
  | [] => true
  | v :: rest => claimSupported v && claimSupportedList rest

/-- `claimSupported` over object entries. -/
def claimSupportedObj : List (String × GraphQLType) → Bool
  | [] => true
  | (_, v) :: rest => claimSupported v && claimSupportedObj rest

end

mutual

/-- Every big-integer leaf is exactly representable as a double, so the
`parseInt` on the way back is lossless. -/
def doubleSafe : GraphQLType → Bool
  | .bigintT n => decide (DoubleExact n)
  | .listT vs => doubleSafeList vs
  | .objT fs => doubleSafeObj fs
  | _ => true

/-- `doubleSafe` over a list. -/
def doubleSafeList : List GraphQLType → Bool
  | [] => true
  | v :: rest => doubleSafe v && doubleSafeList rest

/-- `doubleSafe` over object entries. -/
def doubleSafeObj : List (String × GraphQLType) → Bool
  | [] => true
  | (_, v) :: rest => doubleSafe v && doubleSafeObj rest

end

mutual

/-- The claim's equality on native values: JS `==` semantics on
primitives (a number and a bigint compare by numeric value), symbols
compared by description rather than identity, lists and maps compared
structurally. -/
def nvLooseEq : GraphQLType → GraphQLType → Bool
  | .nullT, .nullT => true
  | .boolT a, .boolT b => a == b
  | .numT a, .numT b => a == b
  | .numT a, .bigintT b => a == ((b : ℤ) : ℚ)
  | .bigintT a, .numT b => ((a : ℤ) : ℚ) == b
  | .bigintT a, .bigintT b => a == b
  | .strT a, .strT b => a == b
  | .symT a, .symT b => a == b
  | .listT a, .listT b => nvLooseEqList a b
  | .objT a, .objT b => nvLooseEqObj a b
  | _, _ => false

/-- `nvLooseEq` elementwise. -/
def nvLooseEqList : List GraphQLType → List GraphQLType → Bool
  | [], [] => true
  | a :: ra, b :: rb => nvLooseEq a b && nvLooseEqList ra rb
  | _, _ => false

/-- `nvLooseEq` entrywise (equal keys, loosely equal values). -/
def nvLooseEqObj :
    List (String × GraphQLType) → List (String × GraphQLType) → Bool
  | [], [] => true
  | a :: ra, b :: rb => a.1 == b.1 && nvLooseEq a.2 b.2 && nvLooseEqObj ra rb
  | _, _ => false

end

/-- `literalToNative(nativeToLiteral(v), {})`. -/
def roundTrip (v : GraphQLType) : Except GQLError GraphQLType := do
  let l ← convertVarToNode v
  convertNodeToVar l []

example : roundTrip (.bigintT 9007199254740993) =
    .ok (.numT 9007199254740992) := by rfl
example : nvLooseEq (.numT 9007199254740992) (.bigintT 9007199254740993) =
    false := by rfl
example : claimSupported (.bigintT 9007199254740993) = true := by rfl

/-- C1 counterexample: the supported big integer `2^53 + 1` does not
round trip — `parseInt` of its decimal string returns the nearest double
`2^53`, which is not equal (even loosely) to the original value. -/
theorem roundTrip_bigint_loses_precision :
    claimSupported (.bigintT 9007199254740993) = true ∧
    roundTrip (.bigintT 9007199254740993) = .ok (.numT 9007199254740992) ∧
    nvLooseEq (.numT 9007199254740992) (.bigintT 9007199254740993) = false :=
  ⟨rfl, rfl, rfl⟩

/-- Integers below the 53-bit mantissa limit are fixed points of the
double rounding. -/
theorem roundToDouble_small (i : Int) (h : i.natAbs < 2 ^ 53) :
    roundToDouble i = i := by
  unfold roundToDouble roundToDoubleNat
  rw [if_pos h]
  exact Int.sign_mul_natAbs i

/-- The `~~`-exact branch: a rational passing the int32 test is the cast
of `toInt32 q = jsTrunc q = q.num`, which is small. -/
theorem int32_exact_facts (q : ℚ) (hq : ((toInt32 q : ℤ) : ℚ) = q) :
    jsTrunc q = toInt32 q ∧ (toInt32 q).natAbs < 2 ^ 53 ∧
      ((jsTrunc q : ℤ) : ℚ) = q := by
  have hden : q.den = 1 := by
    rw [← hq]
    exact Rat.den_intCast _
  have hnum : q.num = toInt32 q := by
    conv_lhs => rw [← hq]
    exact Rat.num_intCast _
  have ht : jsTrunc q = toInt32 q := by
    rw [jsTrunc_den_one hden, hnum]
  refine ⟨ht, ?_, ?_⟩
  · have h1 : (0 : ℤ) ≤ (jsTrunc q + 2 ^ 31) % 2 ^ 32 :=
      Int.emod_nonneg _ (by norm_num)
    have h2 : (jsTrunc q + 2 ^ 31) % 2 ^ 32 < 2 ^ 32 :=
      Int.emod_lt_of_pos _ (by norm_num)
    have he : toInt32 q = (jsTrunc q + 2 ^ 31) % 2 ^ 32 - 2 ^ 31 := rfl
    omega
  · rw [ht, ← hnum]
    exact (Rat.den_eq_one_iff q).mp hden

/-- The three-way round-trip induction: every supported, double-safe
native value serializes to a literal that converts back (with empty
bindings) to a loosely-equal native value; likewise element- and
entry-wise. -/
theorem roundTrip_aux :
    (∀ v : GraphQLType, claimSupported v = true → doubleSafe v = true →
      ∃ l w, convertVarToNode v = .ok l ∧ convertNodeToVar l [] = .ok w ∧
        nvLooseEq w v = true) ∧
    (∀ o : List (String × GraphQLType), claimSupportedObj o = true →
      doubleSafeObj o = true →
      ∃ lo wo, convertVarToNodeObj o = .ok lo ∧
        convertNodeToVarObj lo [] = .ok wo ∧ nvLooseEqObj wo o = true) ∧
    (∀ vs : List GraphQLType, claimSupportedList vs = true →
      doubleSafeList vs = true →
      ∃ ls ws, convertVarToNodeList vs = .ok ls ∧
        convertNodeToVarList ls [] = .ok ws ∧
        nvLooseEqList ws vs = true) := by
  refine convertVarToNode.mutual_induct
    (fun v => claimSupported v = true → doubleSafe v = true →
      ∃ l w, convertVarToNode v = .ok l ∧ convertNodeToVar l [] = .ok w ∧
        nvLooseEq w v = true)
    (fun o => claimSupportedObj o = true → doubleSafeObj o = true →
      ∃ lo wo, convertVarToNodeObj o = .ok lo ∧
        convertNodeToVarObj lo [] = .ok wo ∧ nvLooseEqObj wo o = true)
    (fun vs => claimSupportedList vs = true → doubleSafeList vs = true →
      ∃ ls ws, convertVarToNodeList vs = .ok ls ∧
        convertNodeToVarList ls [] = .ok ws ∧ nvLooseEqList ws vs = true)
    ?_ ?_ ?_ ?_ ?_ ?_ ?_ ?_ ?_ ?_ ?_ ?_ ?_ ?_ ?_
  · intro _ _
    exact ⟨.nullV, .nullT, rfl, rfl, rfl⟩
  · intro vs ih h1 h2
    simp only [claimSupported] at h1
    simp only [doubleSafe] at h2
    obtain ⟨ls, ws, g1, g2, g3⟩ := ih h1 h2
    refine ⟨.listV ls, .listT ws, ?_, ?_, ?_⟩
    · simp [convertVarToNode, g1, Bind.bind, Except.bind, Pure.pure,
        Except.pure]
    · simp [convertNodeToVar, g2, Bind.bind, Except.bind, Pure.pure,
        Except.pure]
    · simpa [nvLooseEq] using g3
  · intro h1 _
    simp [claimSupported] at h1
  · intro h1 _
    simp [claimSupported] at h1
  · intro s hs _ _
    refine ⟨.enumV s, .symT (some s), ?_, rfl, ?_⟩
    · simp [convertVarToNode, hs]
    · simp [nvLooseEq]
  · intro fields ih h1 h2
    simp only [claimSupported, Bool.and_eq_true] at h1
    simp only [doubleSafe] at h2
    obtain ⟨lo, wo, g1, g2, g3⟩ := ih h1.2 h2
    refine ⟨.objV lo, .objT wo, ?_, ?_, ?_⟩
    · simp [convertVarToNode, g1, Bind.bind, Except.bind, Pure.pure,
        Except.pure]
    · simp [convertNodeToVar, g2, Bind.bind, Except.bind, Pure.pure,
        Except.pure]
    · simpa [nvLooseEq] using g3
  · intro b _ _
    exact ⟨.boolV b, .boolT b, rfl, rfl, by simp [nvLooseEq]⟩
  · intro q hq _ _
    obtain ⟨ht, hb, hcast⟩ := int32_exact_facts q hq
    have hr : roundToDouble (jsTrunc q) = jsTrunc q := by
      rw [ht]
      exact roundToDouble_small _ (ht ▸ hb)
    refine ⟨.intV (jsTrunc q),
      .numT ((roundToDouble (jsTrunc q) : ℤ) : ℚ), ?_, rfl, ?_⟩
    · simp [convertVarToNode, hq]
    · simp [nvLooseEq, hr, hcast]
  · intro q hq _ _
    refine ⟨.floatV q, .numT q, ?_, rfl, ?_⟩
    · simp [convertVarToNode, hq]
    · simp [nvLooseEq]
  · intro n _ h2
    simp only [doubleSafe] at h2
    have hfix : roundToDouble n = n := (of_decide_eq_true h2).2
    refine ⟨.intV n, .numT ((roundToDouble n : ℤ) : ℚ), rfl, rfl, ?_⟩
    simp [nvLooseEq, hfix]
  · intro s _ _
    exact ⟨.strV s, .strT s, rfl, rfl, by simp [nvLooseEq]⟩
  · intro _ _
    exact ⟨[], [], rfl, rfl, rfl⟩
  · intro v rest ihv ihrest h1 h2
    simp only [claimSupportedList, Bool.and_eq_true] at h1
    simp only [doubleSafeList, Bool.and_eq_true] at h2
    obtain ⟨l, w, g1, g2, g3⟩ := ihv h1.1 h2.1
    obtain ⟨ls, ws, f1, f2, f3⟩ := ihrest h1.2 h2.2
    refine ⟨l :: ls, w :: ws, ?_, ?_, ?_⟩
    · simp [convertVarToNodeList, g1, f1, Bind.bind, Except.bind,
        Pure.pure, Except.pure]
    · simp [convertNodeToVarList, g2, f2, Bind.bind, Except.bind,
        Pure.pure, Except.pure]
    · simp [nvLooseEqList, g3, f3]
  · intro _ _
    exact ⟨[], [], rfl, rfl, rfl⟩
  · intro k v rest ihv ihrest h1 h2
    simp only [claimSupportedObj, Bool.and_eq_true] at h1
    simp only [doubleSafeObj, Bool.and_eq_true] at h2
    obtain ⟨l, w, g1, g2, g3⟩ := ihv h1.1 h2.1
    obtain ⟨ls, ws, f1, f2, f3⟩ := ihrest h1.2 h2.2
    refine ⟨(k, l) :: ls, (k, w) :: ws, ?_, ?_, ?_⟩
    · simp [convertVarToNodeObj, g1, f1, Bind.bind, Except.bind,
        Pure.pure, Except.pure]
    · simp [convertNodeToVarObj, g2, f2, Bind.bind, Except.bind,
        Pure.pure, Except.pure]
    · simp [nvLooseEqObj, g3, f3]

/-- C1 (amended): for every supported NativeValue whose big-integer
leaves are exactly double-representable,
`literalToNative(nativeToLiteral(v), {})` equals `v` — with symbols
compared by description and a big integer compared by numeric value with
the number it becomes. -/
theorem roundTrip_looseEq (v : GraphQLType)
    (h1 : claimSupported v = true) (h2 : doubleSafe v = true) :
    ∃ w, roundTrip v = .ok w ∧ nvLooseEq w v = true := by
  obtain ⟨l, w, g1, g2, g3⟩ := roundTrip_aux.1 v h1 h2
  refine ⟨w, ?_, g3⟩
  simp [roundTrip, g1, g2, Bind.bind, Except.bind]

set_option maxRecDepth 4000 in
/-- Witness for C1: a compound value exercising every supported case —
null, boolean, small and exactly-representable big integers, a
non-integral number, a described symbol, a string, a list and a
string-keyed map. -/
theorem roundTrip_looseEq_witness :
    ∃ w, roundTrip (.listT [.bigintT 1152921504606846976, .numT q123_45,
        .symT (some "E"), .objT [("a", .nullT)], .strT "s", .boolT true,
        .numT 5]) = .ok w ∧
      nvLooseEq w (.listT [.bigintT 1152921504606846976, .numT q123_45,
        .symT (some "E"), .objT [("a", .nullT)], .strT "s", .boolT true,
        .numT 5]) = true :=
  roundTrip_looseEq (.listT [.bigintT 1152921504606846976, .numT q123_45,
    .symT (some "E"), .objT [("a", .nullT)], .strT "s", .boolT true,
    .numT 5]) (by rfl) (by rfl)
